import Mathlib

set_option maxRecDepth 10000

/-!
Verification development for the PlaceInRegions repository
(interactive CAD rebar-placement tools).

The Python source is shallowly embedded over exact rational arithmetic:

* points and vectors (`AllplanGeo.Point3D` / `Vector3D` / `Point2D`)
  become records of rationals;
* `AllplanGeo.Matrix3D` (an affine 3D transform) becomes `Aff3`, a
  3x3 linear part plus a translation, with an executable adjugate
  inverse standing for `Matrix3D.Reverse`;
* the mutable Python objects (`BendingShape`, `BarPlacement`) become
  immutable records, and in-place mutation becomes functional update;
* every Python `raise` becomes an `Except` error value, with one
  constructor per distinct raise site / Python error;
* Python strings are modelled as `List Char`, and `str.split`,
  `str.replace`, `str.count` and the concrete regular expression of
  `placement_regions_from_string` are implemented directly on
  character lists;
* distortion directions are represented by their unit vector: the code
  normalizes `distortion_vector` before using it (`Vector3D.Normalize`),
  and `Matrix3D.SetRotation` is norm-preserving, so every use of the
  direction factors through the unit vector.

External Allplan geometry primitives that the core calls
(`DivisionPoints`, `IntersectionCalculus`, `CalcLength`, `IsPlanar`,
polygon `Split`) are not part of the repository; they are modelled from
the spec where a concrete model is needed, or taken as function
parameters where only the control flow around them is claimed.
-/

/-- 3D point / vector over exact rationals
(embedding of `AllplanGeo.Point3D` and `AllplanGeo.Vector3D`). -/
structure V3 where
  x : ℚ
  y : ℚ
  z : ℚ
deriving DecidableEq, Repr

/-- 2D point over exact rationals (embedding of `AllplanGeo.Point2D`). -/
structure Pt2 where
  x : ℚ
  y : ℚ
deriving DecidableEq, Repr

def dot3 (a b : V3) : ℚ :=
  a.x * b.x + a.y * b.y + a.z * b.z

def add3 (a b : V3) : V3 :=
  ⟨a.x + b.x, a.y + b.y, a.z + b.z⟩

def sub3 (a b : V3) : V3 :=
  ⟨a.x - b.x, a.y - b.y, a.z - b.z⟩

def smul3 (c : ℚ) (v : V3) : V3 :=
  ⟨c * v.x, c * v.y, c * v.z⟩

def cross3 (a b : V3) : V3 :=
  ⟨a.y * b.z - a.z * b.y, a.z * b.x - a.x * b.z, a.x * b.y - a.y * b.x⟩

/-- Lift a 2D point to 3D with `z = 0` (embedding of `Point3D(point2d)`
and of `Vector2D.To3D`). -/
def to3 (p : Pt2) : V3 :=
  ⟨p.x, p.y, 0⟩

/-- Drop the `z` coordinate (embedding of `AllplanGeo.ConvertTo2D` on
a point that has already been flattened onto the `z = 0` plane). -/
def to2 (p : V3) : Pt2 :=
  ⟨p.x, p.y⟩

/-- Affine 3D transform: `p ↦ M p + t`.  Embedding of
`AllplanGeo.Matrix3D` (which the code only ever uses as an affine
transform); Allplan's row-vector convention is absorbed into how the
nine linear entries are read. -/
structure Aff3 where
  m11 : ℚ
  m12 : ℚ
  m13 : ℚ
  m21 : ℚ
  m22 : ℚ
  m23 : ℚ
  m31 : ℚ
  m32 : ℚ
  m33 : ℚ
  t1 : ℚ
  t2 : ℚ
  t3 : ℚ
deriving DecidableEq, Repr

/-- Apply an affine transform to a point (`Point3D * Matrix3D`). -/
def applyAff (a : Aff3) (p : V3) : V3 :=
  ⟨a.m11 * p.x + a.m12 * p.y + a.m13 * p.z + a.t1,
   a.m21 * p.x + a.m22 * p.y + a.m23 * p.z + a.t2,
   a.m31 * p.x + a.m32 * p.y + a.m33 * p.z + a.t3⟩

/-- Apply only the linear part to a direction (`Vector3D * Matrix3D`:
directions are not translated). -/
def applyLin (a : Aff3) (v : V3) : V3 :=
  ⟨a.m11 * v.x + a.m12 * v.y + a.m13 * v.z,
   a.m21 * v.x + a.m22 * v.y + a.m23 * v.z,
   a.m31 * v.x + a.m32 * v.y + a.m33 * v.z⟩

def identAff : Aff3 :=
  ⟨1, 0, 0, 0, 1, 0, 0, 0, 1, 0, 0, 0⟩

def det3 (a : Aff3) : ℚ :=
  a.m11 * (a.m22 * a.m33 - a.m23 * a.m32)
    - a.m12 * (a.m21 * a.m33 - a.m23 * a.m31)
    + a.m13 * (a.m21 * a.m32 - a.m22 * a.m31)

/-- Matrix inversion (embedding of `Matrix3D.Reverse`): `none` exactly
when the linear part is singular, i.e. when `Reverse` returns `False`. -/
def invertAff (a : Aff3) : Option Aff3 :=
  let d := det3 a
  if d = 0 then none
  else
    let i11 := (a.m22 * a.m33 - a.m23 * a.m32) / d
    let i12 := (a.m13 * a.m32 - a.m12 * a.m33) / d
    let i13 := (a.m12 * a.m23 - a.m13 * a.m22) / d
    let i21 := (a.m23 * a.m31 - a.m21 * a.m33) / d
    let i22 := (a.m11 * a.m33 - a.m13 * a.m31) / d
    let i23 := (a.m13 * a.m21 - a.m11 * a.m23) / d
    let i31 := (a.m21 * a.m32 - a.m22 * a.m31) / d
    let i32 := (a.m12 * a.m31 - a.m11 * a.m32) / d
    let i33 := (a.m11 * a.m22 - a.m12 * a.m21) / d
    some ⟨i11, i12, i13, i21, i22, i23, i31, i32, i33,
          -(i11 * a.t1 + i12 * a.t2 + i13 * a.t3),
          -(i21 * a.t1 + i22 * a.t2 + i23 * a.t3),
          -(i31 * a.t1 + i32 * a.t2 + i33 * a.t3)⟩

/-- One constructor per distinct Python raise site reached by the
embedded code.  `malformedSpecification` is the
`ValueError("Regions string is invalid")` of the region parser;
`maxOfEmptySequence` is the `ValueError` Python's `max()` raises on an
empty sequence (both in `distort_shape` on an empty marked-vertex set
and in `total_length` on an empty polygon);
`vertexIndexOutOfRange` is the `ValueError` of `distort_shape`;
`evalSyntaxError` is the `SyntaxError` Python's `eval` raises on an
integer literal with leading zeros; `floatValueError` is the
`ValueError` of `float()` on a malformed numeral;
`perpendicularCutLine` is the `ValueError` of
`PolygonalPlacementInRegions._above`; `nonInvertibleTransform` is the
`ValueError` of `PolygonalPlacementInteractorResult.local_to_world`;
`indexError` is Python's `IndexError`. -/
inductive PErr where
  | malformedSpecification
  | maxOfEmptySequence
  | vertexIndexOutOfRange
  | evalSyntaxError
  | floatValueError
  | perpendicularCutLine
  | nonInvertibleTransform
  | indexError
deriving DecidableEq, Repr

/-- Embedding of `AllplanReinf.BendingShape`: the 3D shape polyline
plus the scalar attributes carried by the constructor call in
`PlacementInRegions.bending_shape`. -/
structure BendingShape where
  polyline : List V3
  diameter : ℚ
  steelGrade : Int
  concreteGrade : Int
  bendingRollers : List ℚ
  shapeType : Int
deriving DecidableEq, Repr

/-- Embedding of `AllplanReinf.BarPlacement(position, barCount,
startShape, endShape)`. -/
structure BarPlacement where
  position : Int
  barCount : ℕ
  startShape : BendingShape
  endShape : BendingShape
deriving DecidableEq, Repr

/-- `BendingShape.Move`: translate every polyline vertex. -/
def moveShape (s : BendingShape) (v : V3) : BendingShape :=
  { s with polyline := s.polyline.map (fun p => add3 p v) }

/-- `BendingShape.Transform`: apply an affine transform to every
polyline vertex; scalar attributes are untouched. -/
def transformShape (a : Aff3) (s : BendingShape) : BendingShape :=
  { s with polyline := s.polyline.map (fun p => applyAff a p) }

/-- `BarPlacement.Transform`: transform both shape instances. -/
def transformPlacement (a : Aff3) (pl : BarPlacement) : BarPlacement :=
  { pl with startShape := transformShape a pl.startShape,
            endShape := transformShape a pl.endShape }

/-- Binary maximum on ℚ written with `if` so that it reduces inside
the kernel. -/
def qmax (a b : ℚ) : ℚ :=
  if a ≤ b then b else a

/-- Binary minimum on ℚ written with `if` so that it reduces inside
the kernel. -/
def qmin (a b : ℚ) : ℚ :=
  if a ≤ b then a else b

/-- Maximum of a rational list, `none` on the empty list. -/
def listMax : List ℚ → Option ℚ
  | [] => none
  | a :: l => some ((listMax l).elim a (fun m => qmax a m))

/-- Minimum of a rational list, `none` on the empty list. -/
def listMin : List ℚ → Option ℚ
  | [] => none
  | a :: l => some ((listMin l).elim a (fun m => qmin a m))

/-- Extent (max minus min) of a rational list, `0` on the empty list.
Embeds `MinMax3D` + `GetSizeZ` after all points have been rotated so
that the measured direction becomes the world `z` axis. -/
def spreadQ (l : List ℚ) : ℚ :=
  match listMax l, listMin l with
  | some M, some m => M - m
  | _, _ => 0

/-- Coordinates of the polyline points along a direction `v`.  For a
unit `v` this is exactly the `z` coordinate after
`Matrix3D.SetRotation(v, Vector3D(0,0,1))`, which is norm-preserving. -/
def dirHeights (v : V3) (l : List V3) : List ℚ :=
  l.map (fun p => dot3 p v)

/-- Embedding of `BendingShapeDistortionUtil.__init__`: the marked
("top") vertex index set plus the distortion direction, represented by
its unit vector (the code normalizes the direction before every use). -/
structure BendingShapeDistortionUtil where
  topVertices : Finset ℕ
  distortionVector : V3
deriving DecidableEq

/-- Embedding of `BendingShapeDistortionUtil.get_distortion_dimension`:
rotate all shape polyline points so the distortion direction becomes
world `z` (for a unit direction: take the dot product with it) and
return the bounding box's `z` extent. -/
def getDistortionDimension (u : BendingShapeDistortionUtil) (s : BendingShape) : ℚ :=
  spreadQ (dirHeights u.distortionVector s.polyline)

/-- The vertex loop of `distort_shape`: translate exactly the vertices
whose index lies in the marked set by `mv`, leaving all others fixed.
`i` is the index of the first list element. -/
def movePolyline (T : Finset ℕ) (mv : V3) : ℕ → List V3 → List V3
  | _, [] => []
  | i, p :: l => (if i ∈ T then add3 p mv else p) :: movePolyline T mv (i + 1) l

/-- Embedding of `BendingShapeDistortionUtil.distort_shape`.
Python first evaluates `max(self.top_vertices)` — which raises
`ValueError` on an empty set before the documented index-range check is
even decided — then raises `ValueError` when the maximal marked index
is not smaller than the polyline's vertex count, and only then moves
the marked vertices by a vector of (signed) length
`new_dimension - current dimension` along the distortion direction. -/
def distortShape (u : BendingShapeDistortionUtil) (s : BendingShape)
    (newDimension : ℚ) : Except PErr BendingShape :=
  if hne : u.topVertices.Nonempty then
    if s.polyline.length ≤ u.topVertices.max' hne then
      .error .vertexIndexOutOfRange
    else
      let difference := newDimension - getDistortionDimension u s
      .ok { s with polyline :=
              movePolyline u.topVertices (smul3 difference u.distortionVector) 0 s.polyline }
  else
    .error .maxOfEmptySequence

/-! ## Region grammar parser (`placement_regions_from_string`)

Python strings are modelled as `List Char`. `splitOnChar` embeds
`str.split` on a one-character separator, `replaceDollar` embeds
`str.replace("$", "1")`, and `countChar` embeds `str.count("$")`.
The anchored regular expression

  `^(\d+|\$)\*?(\d+(\.\d+)?)(\+(\d+|\$)\*?(\d+(\.\d+)?))*$`

is one or more `'+'`-separated chunks, each matching
`(\d+|\$)\*?(\d+(\.\d+)?)`; since a chunk never contains `'+'`, the
whole string matches iff every `'+'`-split chunk matches the chunk
pattern.  `chunkOK` decides the chunk language: with backtracking,
a chunk without `'*'` and without `'$'` matches iff it is at least two
digits optionally followed by `'.'` and digits (the digit run splits
into the two mandatory `\d+` groups). -/

/-- `str.split(sep)` for a one-character separator, with Python's
semantics (`"".split` gives one empty part, a trailing separator gives
a trailing empty part). -/
def splitOnChar (sep : Char) : List Char → List (List Char)
  | [] => [[]]
  | c :: cs =>
    let r := splitOnChar sep cs
    if c = sep then [] :: r
    else
      match r with
      | [] => [[c]]
      | h :: t => (c :: h) :: t

/-- `str.replace("$", "1")` (the argument is a single character, so
substring replacement is character replacement). -/
def replaceDollar (cs : List Char) : List Char :=
  cs.map (fun ch => if ch = '$' then '1' else ch)

/-- `str.count("$")` for a one-character needle. -/
def countChar (c : Char) (cs : List Char) : ℕ :=
  cs.count c

/-- A nonempty run of decimal digits (`\d+`). -/
def digitsOK (cs : List Char) : Bool :=
  !cs.isEmpty && cs.all Char.isDigit

/-- The spacing group `\d+(\.\d+)?`. -/
def spacingOK (cs : List Char) : Bool :=
  match splitOnChar '.' cs with
  | [a] => digitsOK a
  | [a, b] => digitsOK a && digitsOK b
  | _ => false

/-- A chunk with neither `'$'` nor `'*'`: the two mandatory digit
groups concatenate, so the language is "two or more digits, optionally
followed by a dot and one or more digits". -/
def noStarOK (cs : List Char) : Bool :=
  match splitOnChar '.' cs with
  | [a] => decide (2 ≤ a.length) && a.all Char.isDigit
  | [a, b] => decide (2 ≤ a.length) && a.all Char.isDigit && digitsOK b
  | _ => false

/-- The rest of a chunk after a leading `'$'`: an optional `'*'`
followed by the mandatory spacing group. -/
def dollarTailOK (r : List Char) : Bool :=
  match r with
  | [] => false
  | ch :: s => if ch = '*' then spacingOK s else spacingOK (ch :: s)

/-- A `'$'`-free chunk: either `\d+ '*' spacing` or the starless
digit form. -/
def starOrBareOK (cs : List Char) : Bool :=
  match splitOnChar '*' cs with
  | [a] => noStarOK a
  | [a, b] => digitsOK a && spacingOK b
  | _ => false

/-- One `'+'`-separated chunk of the region string matches
`(\d+|\$)\*?(\d+(\.\d+)?)`. -/
def chunkOK (cs : List Char) : Bool :=
  match cs with
  | [] => false
  | ch :: r => if ch = '$' then dollarTailOK r else starOrBareOK (ch :: r)

/-- The whole region string matches the anchored pattern of
`placement_regions_from_string`. -/
def regionsPatternOK (cs : List Char) : Bool :=
  (splitOnChar '+' cs).all chunkOK

/-- Numeric value of a digit run as a natural number. -/
def digitsNatVal (cs : List Char) : ℕ :=
  cs.foldl (fun acc c => 10 * acc + (c.toNat - 48)) 0

/-- Numeric value of a digit run as a rational. -/
def digitsVal (cs : List Char) : ℚ :=
  (digitsNatVal cs : ℚ)

/-- Value of a fractional digit run (`"25"` ↦ `0.25`). -/
def fracVal (cs : List Char) : ℚ :=
  digitsVal cs / (10 ^ cs.length : ℚ)

/-- Plain decimal-numeral semantics (integer part, optional dot,
fractional part), total on any character list; garbage maps to `0`.
Used as the grammar-side meaning of a numeral. -/
def numVal (cs : List Char) : ℚ :=
  match splitOnChar '.' cs with
  | [a] => digitsVal a
  | [a, b] => digitsVal a + fracVal b
  | _ => 0

/-- Python numeric literal as accepted by `eval`: an integer literal
must not have leading zeros unless it is all zeros (`eval("05")` is a
`SyntaxError`, `eval("00")` is `0`); a float literal
`digits '.' digits` may have leading zeros (and needs at least one
digit). -/
def evalLit (cs : List Char) : Option ℚ :=
  match splitOnChar '.' cs with
  | [a] =>
    if digitsOK a ∧ (a.headD '0' ≠ '0' ∨ a.all (fun ch => ch = '0')) then
      some (digitsVal a)
    else none
  | [a, b] =>
    if a.all Char.isDigit ∧ b.all Char.isDigit ∧ (a ≠ [] ∨ b ≠ []) then
      some (digitsVal a + fracVal b)
    else none
  | _ => none

/-- `mapM` over `Option`, written out for easy induction. -/
def optionMapM (f : List Char → Option ℚ) : List (List Char) → Option (List ℚ)
  | [] => some []
  | a :: l =>
    match f a with
    | none => none
    | some b =>
      match optionMapM f l with
      | none => none
      | some bs => some (b :: bs)

/-- Python `eval` restricted to the expressions this parser can feed
it: a product of numeric literals separated by `'*'` (after the guard,
a chunk contains at most one `'*'`; the general fold also covers
`eval("1*2*3") = 6`). -/
def evalPy (cs : List Char) : Option ℚ :=
  match optionMapM evalLit (splitOnChar '*' cs) with
  | some vs => some (vs.foldl (fun a b => a * b) 1)
  | none => none

/-- Python `float()` on the numerals reachable here: digits with an
optional fractional part; leading zeros are fine (`float("05") = 5.0`). -/
def floatVal (cs : List Char) : Option ℚ :=
  match splitOnChar '.' cs with
  | [a] => if digitsOK a then some (digitsVal a) else none
  | [a, b] =>
    if a.all Char.isDigit ∧ b.all Char.isDigit ∧ (a ≠ [] ∨ b ≠ []) then
      some (digitsVal a + fracVal b)
    else none
  | _ => none

/-- A placement region tuple `(region length, spacing, bar diameter)`. -/
abbrev RegionTuple : Type :=
  ℚ × ℚ × ℚ

/-- The per-chunk body of the parser loop: the `'$'` branch replaces
`'$'` by `'1'` and `eval`s, the `'*'` branch `eval`s the product and
`float`s the part after the star, the bare branch `float`s the chunk
twice. -/
def evalChunk (d : ℚ) (c : List Char) : Except PErr RegionTuple :=
  if '$' ∈ c then
    match evalPy (replaceDollar c) with
    | some v => .ok (0, v, d)
    | none => .error .evalSyntaxError
  else if '*' ∈ c then
    match evalPy c, floatVal ((splitOnChar '*' c).getD 1 []) with
    | some v, some f => .ok (v, f, d)
    | none, _ => .error .evalSyntaxError
    | some _, none => .error .floatValueError
  else
    match floatVal c with
    | some v => .ok (v, v, d)
    | none => .error .floatValueError

/-- `mapM` over `Except`, written out for easy induction. -/
def exceptMapM (f : α → Except PErr β) : List α → Except PErr (List β)
  | [] => .ok []
  | a :: l =>
    match f a with
    | .error e => .error e
    | .ok b =>
      match exceptMapM f l with
      | .error e => .error e
      | .ok bs => .ok (b :: bs)

/-- Embedding of `PlacementInRegions.placement_regions_from_string`:
guard (regular expression and exactly one `'$'`), then the per-chunk
loop over the `'+'`-split chunks. -/
def placementRegionsFromString (s : List Char) (diameter : ℚ) :
    Except PErr (List RegionTuple) :=
  if regionsPatternOK s = true ∧ countChar '$' s = 1 then
    exceptMapM (evalChunk diameter) (splitOnChar '+' s)
  else
    .error .malformedSpecification

/-- Grammar-side meaning of one chunk, following the (amended) spec
wording: `N*S ↦ (N*S, S, d)`, bare `S ↦ (S, S, d)`, `$*S ↦ (0, S, d)`,
and — the amendment forced by the code — a starless open term
`$S ↦ (0, value of '1' followed by the digits of S, d)`. -/
def specRegionOfChunk (d : ℚ) (c : List Char) : RegionTuple :=
  match c with
  | [] => (0, 0, d)
  | ch :: r =>
    if ch = '$' then
      match r with
      | [] => (0, numVal ['1'], d)
      | ch2 :: s =>
        if ch2 = '*' then (0, numVal s, d) else (0, numVal ('1' :: ch2 :: s), d)
    else
      match splitOnChar '*' (ch :: r) with
      | [a, b] => (numVal a * numVal b, numVal b, d)
      | _ => (numVal (ch :: r), numVal (ch :: r), d)

/-! ## Polygonal placement pipeline
(`PolygonalPlacementInRegions.place_by_polygon` / `_populate_regions`
and the data carried by `PolygonalPlacementInteractorResult`). -/

/-- Embedding of `PolygonalPlacementInteractorResult`: the elementary
placement quadrilaterals in world coordinates plus the world-to-local
matrix. -/
structure PolygonalPlacementInteractorResult where
  elementaryPolygons : List (List V3)
  worldToLocal : Aff3
deriving DecidableEq

/-- The `local_to_world` property: invert `world_to_local`, raising
`ValueError` when `Matrix3D.Reverse` fails. -/
def localToWorldE (pd : PolygonalPlacementInteractorResult) : Except PErr Aff3 :=
  match invertAff pd.worldToLocal with
  | some a => .ok a
  | none => .error .nonInvertibleTransform

/-- The `total_length` property: maximal local `x` coordinate over the
points of the last elementary polygon.  Python raises `IndexError` on
an empty polygon list (`elementary_polygons[-1]`) and `ValueError` on
`max` of an empty point sequence. -/
def totalLengthE (pd : PolygonalPlacementInteractorResult) : Except PErr ℚ :=
  match pd.elementaryPolygons.getLast? with
  | none => .error .indexError
  | some lp =>
    match listMax (lp.map (fun p => (applyAff pd.worldToLocal p).x)) with
    | some m => .ok m
    | none => .error .maxOfEmptySequence

/-- The value inputs of a `PolygonalPlacementInRegions` object: the
shape polyline read from the bars representation line
(`GetGeometry()`), the shape's UVS-to-world transform, the cut line
(in the shape's UVS), the covers, and the bar data read from the
reinforcement service (position, diameter, steel grade) together with
the bending-roller factor and shape type the `bending_shape` property
looks up. -/
structure PolyPlacementInput where
  shape2d : List Pt2
  uvsToWorld : Aff3
  cutLine : Pt2 × Pt2
  startCover : ℚ
  endCover : ℚ
  barPosition : Int
  diameter : ℚ
  steelGrade : Int
  rollerFactor : ℚ
  shapeType : Int
deriving DecidableEq

/-- Embedding of the `bending_shape` property: lift the 2D shape
polyline to 3D, transform it by `uvs_to_world`, and package it with
the bar data; the bending-roller list has `LineCount() - 1` entries
(vertex count minus two, as in the source). -/
def bendingShapeOf (inp : PolyPlacementInput) : BendingShape :=
  { polyline := inp.shape2d.map (fun p => applyAff inp.uvsToWorld (to3 p)),
    diameter := inp.diameter,
    steelGrade := inp.steelGrade,
    concreteGrade := -1,
    bendingRollers := List.replicate (inp.shape2d.length - 1 - 1) inp.rollerFactor,
    shapeType := inp.shapeType }

/-- Modelled from the spec: the plane returned by
`Polyline3D.IsPlanar`, represented by the polyline's first point and
an (unnormalized) normal computed from the first vertex triple.
`_project_shape_on_point` uses the plane only through the out-of-plane
component of a difference vector, which does not depend on the
normal's length or on which plane point is chosen. -/
def polyNormal : List V3 → V3
  | a :: b :: c :: _ => cross3 (sub3 b a) (sub3 c a)
  | _ => ⟨0, 0, 0⟩

/-- Embedding of `PlacementInRegions._project_shape_on_point`: move
the shape by the out-of-plane component of the vector from the shape
plane's point to the target point.  With unit normal `n̂` the move is
`((to - p₀)·n̂)n̂ = ((to - p₀)·n / (n·n)) n`.  A degenerate normal
(non-planar data that `IsPlanar` would reject; the code ignores the
success flag) leaves the shape unmoved. -/
def projectShapeOnPoint (s : BendingShape) (toPoint : V3) : BendingShape :=
  let p0 := s.polyline.headD ⟨0, 0, 0⟩
  let n := polyNormal s.polyline
  if dot3 n n = 0 then s
  else moveShape s (smul3 (dot3 (sub3 toPoint p0) n / dot3 n n) n)

/-- 2D cross product (`z` component of the 3D cross product). -/
def crossZ (d e : Pt2) : ℚ :=
  d.x * e.y - d.y * e.x

/-- `Comparison.DeterminePosition(line, pnt, 1e-11) == eAbove`: the
point lies strictly to the left of the directed line (exact model of
the tolerance comparison). -/
def aboveCut (cs ce p : Pt2) : Bool :=
  decide (0 < crossZ ⟨ce.x - cs.x, ce.y - cs.y⟩ ⟨p.x - cs.x, p.y - cs.y⟩)

/-- The top-vertex computation of `place_by_polygon` together with
`PolygonalPlacementInRegions._above`: the cut direction is mapped to
world space, a zero dot product with the view direction raises
`ValueError`, and a negative one reverses the (shared, mutable) cut
line — so every vertex is tested against the orientation whose
direction has positive dot with the view direction.  `_above`
normalizes the cut direction, which changes neither the zero test nor
the sign. -/
def computeTopVerticesE (inp : PolyPlacementInput) (viewDir : V3) :
    Except PErr (Finset ℕ) :=
  if inp.shape2d.isEmpty then .ok ∅
  else
    let cutDir := applyLin inp.uvsToWorld
      (to3 ⟨inp.cutLine.2.x - inp.cutLine.1.x, inp.cutLine.2.y - inp.cutLine.1.y⟩)
    let vs := dot3 viewDir cutDir
    if vs = 0 then .error .perpendicularCutLine
    else
      let cl := if vs < 0 then (inp.cutLine.2, inp.cutLine.1) else inp.cutLine
      .ok ((inp.shape2d.enum.filterMap
        (fun ip => if aboveCut cl.1 cl.2 ip.2 then some ip.1 else none)).toFinset)

/-- Modelled from the spec: `AllplanGeo.DivisionPoints(line, spacing,
1e-11).GetPoints()` on the trimmed placement line from `(a, 0)` to
`(b, 0)` — evenly spaced points at `spacing` intervals starting at the
line's start point (exact division in place of the float tolerance). -/
def divisionPoints (a b spacing : ℚ) : List Pt2 :=
  if spacing ≤ 0 ∨ b < a then []
  else (List.range ((((b - a) / spacing).floor.toNat) + 1)).map
    (fun k => ⟨a + (k : ℚ) * spacing, 0⟩)

/-- Modelled from the spec: `AllplanGeo.CalcLength` on the `Line2D`
values built by `_populate_regions`.  Every such line is a cross-bar
segment on a vertical probe axis (both endpoints share the probe's
`x`), where the Euclidean length is the `y` extent; on other lines
this model is unspecified and returns `0`. -/
def calcLength2D (l : Pt2 × Pt2) : ℚ :=
  if l.1.x = l.2.x then |l.2.y - l.1.y| else 0

/-- Modelled from the spec: `AllplanGeo.IntersectionCalculus` of the
vertical probe axis `x = c` with a closed polygon — the proper
crossings of the axis with each boundary edge, in edge order
(crossings through a vertex or along a vertical edge are not modelled;
the probes of the claims hit edge interiors). -/
def verticalIntersections (c : ℚ) (poly : List Pt2) : List Pt2 :=
  (poly.zip poly.tail).filterMap (fun e =>
    if (e.1.x < c ∧ c < e.2.x) ∨ (e.2.x < c ∧ c < e.1.x) then
      some ⟨c, e.1.y + (c - e.1.x) * (e.2.y - e.1.y) / (e.2.x - e.1.x)⟩
    else none)

/-- The probe loop of `_populate_regions` for one elementary polygon:
one cross-bar segment per division point whose probe axis meets the
polygon in exactly two points (`found and len(points) == 2`). -/
def crossBarLines (divPts : List Pt2) (poly : List Pt2) : List (Pt2 × Pt2) :=
  divPts.filterMap (fun dp =>
    match verticalIntersections dp.x poly with
    | [p, q] => some (p, q)
    | _ => none)

/-- Embedding of the dataclass `PolygonalPlacementInRegions.Region`. -/
structure Region where
  barCount : ℕ
  startPnt : Pt2
  heightAtStart : ℚ
  endPnt : Pt2
  heightAtEnd : ℚ
deriving DecidableEq, Repr

def dummyLine : Pt2 × Pt2 :=
  (⟨0, 0⟩, ⟨0, 0⟩)

/-- The `Region` built from a (nonempty) cross-bar line list:
`lines[0]` / `lines[-1]` carry the region's start/end points and the
heights are the segment lengths minus the hard-coded `60`. -/
def regionOfLines (ls : List (Pt2 × Pt2)) : Region :=
  { barCount := ls.length,
    startPnt := (ls.headD dummyLine).1,
    heightAtStart := calcLength2D (ls.headD dummyLine) - 60,
    endPnt := (ls.getLastD dummyLine).1,
    heightAtEnd := calcLength2D (ls.getLastD dummyLine) - 60 }

/-- One polygon of the `_populate_regions` loop: a `Region` when at
least one probe qualifies (`if bar_count := len(lines):`), otherwise
nothing. -/
def regionOfPoly (divPts : List Pt2) (poly : List Pt2) : Option Region :=
  let ls := crossBarLines divPts poly
  if ls.isEmpty then none else some (regionOfLines ls)

/-- The elementary polygons re-expressed in the local frame
(`ConvertTo2D(polygon_3d * world_to_local)`). -/
def localPolys (pd : PolygonalPlacementInteractorResult) : List (List Pt2) :=
  pd.elementaryPolygons.map (fun p3 => p3.map (fun p => to2 (applyAff pd.worldToLocal p)))

/-- The division points of `_populate_regions`: the placement line on
the local `x` axis from `0` to `total_length`, trimmed by the covers,
divided at `spacing` intervals. -/
def divPtsE (startCover endCover : ℚ) (pd : PolygonalPlacementInteractorResult)
    (spacing : ℚ) : Except PErr (List Pt2) :=
  match totalLengthE pd with
  | .error e => .error e
  | .ok len => .ok (divisionPoints startCover (len - endCover) spacing)

/-- Embedding of `PolygonalPlacementInRegions._populate_regions`. -/
def populateRegionsE (startCover endCover : ℚ)
    (pd : PolygonalPlacementInteractorResult) (spacing : ℚ) :
    Except PErr (List Region) :=
  match divPtsE startCover endCover pd spacing with
  | .error e => .error e
  | .ok dps => .ok ((localPolys pd).filterMap (regionOfPoly dps))

/-- The elementary polygons (in local coordinates) with at least one
qualifying probe — exactly those that contribute a `Region`. -/
def qualifyingPolys (dps : List Pt2) (pd : PolygonalPlacementInteractorResult) :
    List (List Pt2) :=
  (localPolys pd).filter (fun p => !(crossBarLines dps p).isEmpty)

/-- The placement loop of `place_by_polygon`: per region, move a copy
of the projected start shape to the region's start/end points, distort
each copy to the region's start/end height, package them as a
`BarPlacement` with position `base + idx`, and transform the placement
to world space. -/
def polygonLoop (util : BendingShapeDistortionUtil) (l2w : Aff3) (basePos : Int) :
    ℕ → BendingShape → List Region → Except PErr (List BarPlacement)
  | _, _, [] => .ok []
  | idx, startShape, r :: rest =>
    match distortShape util (moveShape startShape (to3 r.startPnt)) r.heightAtStart with
    | .error e => .error e
    | .ok sd =>
      match distortShape util (moveShape startShape (to3 r.endPnt)) r.heightAtEnd with
      | .error e => .error e
      | .ok ed =>
        match polygonLoop util l2w basePos (idx + 1) startShape rest with
        | .error e => .error e
        | .ok tail =>
          .ok (transformPlacement l2w ⟨basePos + (idx : Int), r.barCount, sd, ed⟩ :: tail)

/-- The distortion utility `place_by_polygon` constructs: top vertices
from the cut line (via `_above`), distortion direction `(0, 1, 0)`. -/
def pipelineUtilE (inp : PolyPlacementInput) (pd : PolygonalPlacementInteractorResult) :
    Except PErr BendingShapeDistortionUtil :=
  match localToWorldE pd with
  | .error e => .error e
  | .ok l2w =>
    match computeTopVerticesE inp (applyLin l2w ⟨0, 0, 1⟩) with
    | .error e => .error e
    | .ok top => .ok ⟨top, ⟨0, 1, 0⟩⟩

/-- The `start_shape` of `place_by_polygon`: a copy of the bending
shape transformed to the local frame and projected onto the plane
through the local origin. -/
def pipelineStartShape (inp : PolyPlacementInput)
    (pd : PolygonalPlacementInteractorResult) : BendingShape :=
  projectShapeOnPoint (transformShape pd.worldToLocal (bendingShapeOf inp)) ⟨0, 0, 0⟩

/-- Embedding of `PolygonalPlacementInRegions.place_by_polygon`
(errors surface in the source's order: failed inversion, perpendicular
cut line, region population, then the distortion calls in the loop). -/
def placeByPolygon (inp : PolyPlacementInput)
    (pd : PolygonalPlacementInteractorResult) (spacing : ℚ) :
    Except PErr (List BarPlacement) :=
  match pipelineUtilE inp pd with
  | .error e => .error e
  | .ok util =>
    match localToWorldE pd with
    | .error e => .error e
    | .ok l2w =>
      match populateRegionsE inp.startCover inp.endCover pd spacing with
      | .error e => .error e
      | .ok regions =>
        polygonLoop util l2w inp.barPosition 0 (pipelineStartShape inp pd) regions

/-! ## Linear placement (`PlacementInRegions.place_in_line`)

`calculate_length_of_regions` and
`create_linear_bar_placement_from_to_by_dist` belong to the external
`StdReinfShapeBuilder` framework (not part of this repository); they
are taken as function parameters, so every theorem about
`placeInLine` holds for all implementations of those collaborators. -/

/-- The inter-iteration shape update of `place_in_line`: move the
shape by the vector to the next region's start anchor; on the last
region the `IndexError` of `region_start_end_points[idx + 1]` is
swallowed by `continue` and the shape stays. -/
def nextShape (sh : BendingShape) (a : V3) : List (V3 × V3) → BendingShape
  | [] => sh
  | (a2, _) :: _ => moveShape sh (sub3 a2 a)

/-- The placement loop of `place_in_line`: one placement per anchor
pair, at position `base + idx`, with the bar distance read from
`placement_regions[idx][1]` (an `IndexError` when the anchor list is
longer than the region list); between iterations the shape moves by
the vector to the next region's start anchor. -/
def lineLoop (createPl : Int → BendingShape → V3 → V3 → ℚ → BarPlacement)
    (regions : List RegionTuple) (basePos : Int) :
    ℕ → BendingShape → List (V3 × V3) → Except PErr (List BarPlacement)
  | _, _, [] => .ok []
  | idx, sh, (a, b) :: rest =>
    match regions.get? idx with
    | none => .error .indexError
    | some reg =>
      let pl := createPl (basePos + (idx : Int)) sh a b reg.2.1
      match lineLoop createPl regions basePos (idx + 1) (nextShape sh a rest) rest with
      | .error e => .error e
      | .ok tail => .ok (pl :: tail)

/-- Embedding of `PlacementInRegions.place_in_line`: project a shape
copy onto the placement line's start point, parse the region string
(with the shape's diameter), compute the per-region anchors through
the external layout collaborator, and run the placement loop. -/
def placeInLine (calcRegions : List RegionTuple → V3 → V3 → ℚ → ℚ → List (V3 × V3))
    (createPl : Int → BendingShape → V3 → V3 → ℚ → BarPlacement)
    (shape : BendingShape) (basePos : Int) (regionsString : List Char)
    (lineStart lineEnd : V3) : Except PErr (List BarPlacement) :=
  let movedShape := projectShapeOnPoint shape lineStart
  match placementRegionsFromString regionsString shape.diameter with
  | .error e => .error e
  | .ok regions =>
    lineLoop createPl regions basePos 0 movedShape (calcRegions regions lineStart lineEnd 30 30)

/-! ## Polygon placement partitioner, local-frame stage
(`PolygonalPlacementInteractor.analyse_input_polygon`, lines 262-292:
from the normalized local 2D polygon to the elementary polygons).
The Allplan polygon `Split` primitive is an external collaborator and
is taken as a function parameter, so every theorem below holds for all
implementations of it. -/

/-- Embedding of `PolygonalPlacementInteractor.PolygonAnalysisResult`. -/
inductive PolygonAnalysisResult where
  | invalidForPreview
  | invalidForPolygonalPlacement
  | valid
deriving DecidableEq, Repr

/-- The segments of a closed polygon given as its point list (with the
closing point repeated): consecutive point pairs. -/
def edgesOf (pts : List Pt2) : List (Pt2 × Pt2) :=
  pts.zip pts.tail

def insertByX (p : Pt2) : List Pt2 → List Pt2
  | [] => [p]
  | q :: l => if p.x ≤ q.x then p :: q :: l else q :: insertByX p l

/-- Insertion sort by the `x` coordinate
(`start_end.sort(key=lambda pnt: pnt.X)`). -/
def sortByX : List Pt2 → List Pt2
  | [] => []
  | p :: l => insertByX p (sortByX l)

/-- The start points of the edges parallel to local `Y`, sorted by
`x`.  An edge is `Y`-parallel iff the 2D cross product of its vector
with `(0, 1)` vanishes, i.e. iff its `x` component is zero
(`(edge.GetVector() * Vector2D(0,1)).IsZero()`). -/
def capStartPoints (poly : List Pt2) : List Pt2 :=
  sortByX (((edgesOf poly).filter (fun e => decide (e.2.x - e.1.x = 0))).map (fun e => e.1))

/-- The cut abscissas: vertex `x` coordinates strictly between the two
cap edges, deduplicated and sorted (`sorted(set(...))`). -/
def splitCoords (poly : List Pt2) (x0 x1 : ℚ) : List ℚ :=
  ((poly.filterMap (fun p => if x0 < p.x ∧ p.x < x1 then some p.x else none)).toFinset).sort (· ≤ ·)

/-- The splitting loop: cut the running polygon at each abscissa with
the vertical splitting line; every left part must be a closed
quadrilateral (5 points), and so must the final remainder — otherwise
the analysis rejects (`none`). -/
def splitFold (split : List Pt2 → ℚ → List Pt2 × List Pt2) :
    List Pt2 → List ℚ → Option (List (List Pt2))
  | current, [] => if current.length = 5 then some [current] else none
  | current, x :: rest =>
    let pr := split current x
    if pr.1.length = 5 then
      match splitFold split pr.2 rest with
      | some ps => some (pr.1 :: ps)
      | none => none
    else none

/-- Embedding of `analyse_input_polygon` from the local-frame stage on
(source lines 262-292): find the `Y`-parallel cap edges — exactly two
must exist — then split at the cut abscissas; any non-quadrilateral
part rejects.  Every outcome is an explicit result value of the
tri-state enum (the function is total; nothing is raised).  In the
reject branches the source returns the pre-rotation polygon; here the
local polygon stands in for it. -/
def analyseFromLocal (split : List Pt2 → ℚ → List Pt2 × List Pt2)
    (localPoly : List Pt2) : PolygonAnalysisResult × List (List Pt2) :=
  match capStartPoints localPoly with
  | [a, b] =>
    match splitFold split localPoly (splitCoords localPoly a.x b.x) with
    | some pieces => (.valid, pieces)
    | none => (.invalidForPolygonalPlacement, [localPoly])
  | _ => (.invalidForPolygonalPlacement, [localPoly])

/-! ## Distortion analysis helpers -/

/-- The height values at marked indices, in polyline order (`i` is the
index of the first element). -/
def markedVals (T : Finset ℕ) : ℕ → List ℚ → List ℚ
  | _, [] => []
  | i, x :: l => if i ∈ T then x :: markedVals T (i + 1) l else markedVals T (i + 1) l

/-- The height values at unmarked indices, in polyline order. -/
def unmarkedVals (T : Finset ℕ) : ℕ → List ℚ → List ℚ
  | _, [] => []
  | i, x :: l => if i ∈ T then unmarkedVals T (i + 1) l else x :: unmarkedVals T (i + 1) l

/-- The effect of `movePolyline` on the height list: add `d` at the
marked indices. -/
def moveHeights (T : Finset ℕ) (d : ℚ) : ℕ → List ℚ → List ℚ
  | _, [] => []
  | i, x :: l => (if i ∈ T then x + d else x) :: moveHeights T d (i + 1) l

/-- Sufficient conditions under which distortion reaches its target
dimension exactly: some vertex is marked and some is not, every marked
vertex lies at least as high (along the distortion direction) as every
unmarked one, and the move `d = target - current dimension` keeps the
marked part's extremes above the unmarked part's
(`max unmarked ≤ max marked + d` and `min unmarked ≤ min marked + d`;
both hold automatically when `target ≥ current dimension`). -/
def DistortOK (u : BendingShapeDistortionUtil) (s : BendingShape) (target : ℚ) : Prop :=
  markedVals u.topVertices 0 (dirHeights u.distortionVector s.polyline) ≠ [] ∧
  unmarkedVals u.topVertices 0 (dirHeights u.distortionVector s.polyline) ≠ [] ∧
  (∀ x ∈ markedVals u.topVertices 0 (dirHeights u.distortionVector s.polyline),
    ∀ y ∈ unmarkedVals u.topVertices 0 (dirHeights u.distortionVector s.polyline), y ≤ x) ∧
  (∀ y ∈ unmarkedVals u.topVertices 0 (dirHeights u.distortionVector s.polyline),
    ∃ x ∈ markedVals u.topVertices 0 (dirHeights u.distortionVector s.polyline),
      y ≤ x + (target - spreadQ (dirHeights u.distortionVector s.polyline))) ∧
  (∀ x ∈ markedVals u.topVertices 0 (dirHeights u.distortionVector s.polyline),
    ∃ y ∈ unmarkedVals u.topVertices 0 (dirHeights u.distortionVector s.polyline),
      y ≤ x + (target - spreadQ (dirHeights u.distortionVector s.polyline)))

instance (u : BendingShapeDistortionUtil) (s : BendingShape) (target : ℚ) :
    Decidable (DistortOK u s target) := by
  unfold DistortOK
  exact inferInstance

/-- All marked vertex indices are in range for the shape's polyline
(the documented precondition of `distort_shape`). -/
def ValidTopIdx (u : BendingShapeDistortionUtil) (s : BendingShape) : Prop :=
  ∀ i ∈ u.topVertices, i < s.polyline.length

instance (u : BendingShapeDistortionUtil) (s : BendingShape) :
    Decidable (ValidTopIdx u s) := by
  unfold ValidTopIdx
  exact inferInstance

/-! ## A concrete polygonal placement scenario

World frame: the placement polygon lies in the world `x`-`y` plane and
the local frame is the world frame (`world_to_local` the identity).
The stirrup shape is drawn in a cross-section UVS whose transform to
world swaps `x` and `z`, so the shape's plane is `x = 0` with normal
along the placement direction.  The cut line slants slightly so that
its world direction is not perpendicular to the view direction. -/

/-- UVS-to-world transform of the shape's section view:
`(x, y, z) ↦ (z, y, x)`. -/
def uvsSwapXZ : Aff3 :=
  ⟨0, 0, 1, 0, 1, 0, 1, 0, 0, 0, 0, 0⟩

/-- The shape polyline in its UVS: an open stirrup of width 50 and
height 100. -/
def exShape2d : List Pt2 :=
  [⟨0, 0⟩, ⟨0, 100⟩, ⟨50, 100⟩, ⟨50, 0⟩]

def exInput : PolyPlacementInput :=
  { shape2d := exShape2d,
    uvsToWorld := uvsSwapXZ,
    cutLine := (⟨0, 50⟩, ⟨100, 60⟩),
    startCover := 30,
    endCover := 30,
    barPosition := 7,
    diameter := 10,
    steelGrade := 4,
    rollerFactor := 4,
    shapeType := 0 }

/-- One elementary polygon: a closed axis-aligned rectangle of length
300 and height 200 in the world (= local) `x`-`y` plane. -/
def exPolygon : List V3 :=
  [⟨0, 0, 0⟩, ⟨300, 0, 0⟩, ⟨300, 200, 0⟩, ⟨0, 200, 0⟩, ⟨0, 0, 0⟩]

def exPlacementData : PolygonalPlacementInteractorResult :=
  { elementaryPolygons := [exPolygon], worldToLocal := identAff }

/-- The distortion utility the pipeline computes for this scenario:
vertices 1 and 2 lie above the cut line. -/
def exUtil : BendingShapeDistortionUtil :=
  ⟨{1, 2}, ⟨0, 1, 0⟩⟩


/-- A two-vertex shape on the world `z` axis (height 10 along
`(0,0,1)`), used in concrete distortion checks. -/
def exShapeA : BendingShape :=
  { polyline := [⟨0, 0, 0⟩, ⟨0, 0, 10⟩],
    diameter := 10, steelGrade := 4, concreteGrade := -1,
    bendingRollers := [4], shapeType := 0 }

/-- A utility marking the bottom vertex of `exShapeA` (the vertex with
the smaller coordinate along the distortion direction). -/
def exUtilBottom : BendingShapeDistortionUtil :=
  ⟨{0}, ⟨0, 0, 1⟩⟩

/-- A utility marking the top vertex of `exShapeA`. -/
def exUtilTop : BendingShapeDistortionUtil :=
  ⟨{1}, ⟨0, 0, 1⟩⟩

/-- A utility whose marked index 5 is out of range for `exShapeA`. -/
def exUtilOutOfRange : BendingShapeDistortionUtil :=
  ⟨{5}, ⟨0, 0, 1⟩⟩

/-- A closed polygon with three edges parallel to local `Y`. -/
def exThreeCapPoly : List Pt2 :=
  [⟨0, 0⟩, ⟨4, 0⟩, ⟨4, 2⟩, ⟨2, 2⟩, ⟨2, 3⟩, ⟨0, 3⟩, ⟨0, 0⟩]

/-- A trivial stand-in for the external polygon `Split` primitive. -/
def exTrivialSplit : List Pt2 → ℚ → List Pt2 × List Pt2 :=
  fun p _ => (p, p)

/-- A closed pentagon with exactly two `Y`-parallel cap edges but an
interior vertex, so a split piece fails the 5-point check. -/
def exPentagonPoly : List Pt2 :=
  [⟨0, 0⟩, ⟨4, 0⟩, ⟨4, 2⟩, ⟨2, 3⟩, ⟨0, 2⟩, ⟨0, 0⟩]

/-- A stand-in for the external
`create_linear_bar_placement_from_to_by_dist`: builds a placement
carrying the given position. -/
def exCreatePl : Int → BendingShape → V3 → V3 → ℚ → BarPlacement :=
  fun pos sh _ _ _ => ⟨pos, 1, sh, sh⟩

/-- A stand-in for the external `calculate_length_of_regions`: two
fixed anchor pairs. -/
def exCalcRegions : List RegionTuple → V3 → V3 → ℚ → ℚ → List (V3 × V3) :=
  fun _ _ _ _ _ => [(⟨30, 0, 0⟩, ⟨230, 0, 0⟩), (⟨230, 0, 0⟩, ⟨970, 0, 0⟩)]

instance {e a : Type} [DecidableEq e] [DecidableEq a] : DecidableEq (Except e a) :=
  fun x y =>
    match x, y with
    | .error u, .error v =>
      decidable_of_iff (u = v) ⟨fun h => by rw [h], fun h => by injection h⟩
    | .error _, .ok _ => .isFalse (fun h => Except.noConfusion h)
    | .ok _, .error _ => .isFalse (fun h => Except.noConfusion h)
    | .ok u, .ok v =>
      decidable_of_iff (u = v) ⟨fun h => by rw [h], fun h => by injection h⟩

/-- The division points of the concrete scenario. -/
def exDps : List Pt2 :=
  [⟨30, 0⟩, ⟨130, 0⟩, ⟨230, 0⟩]

/-- The concrete scenario's elementary polygon in local coordinates. -/
def exLocalPoly : List Pt2 :=
  [⟨0, 0⟩, ⟨300, 0⟩, ⟨300, 200⟩, ⟨0, 200⟩, ⟨0, 0⟩]

/-- The start instance `place_by_polygon` produces in the concrete
scenario: the stirrup moved to `x = 30` and distorted to height 140. -/
def exStartInstance : BendingShape :=
  { polyline := [⟨30, 0, 0⟩, ⟨30, 140, 0⟩, ⟨30, 140, 50⟩, ⟨30, 0, 50⟩],
    diameter := 10, steelGrade := 4, concreteGrade := -1,
    bendingRollers := [4, 4], shapeType := 0 }

/-- The end instance of the concrete scenario, at `x = 230`. -/
def exEndInstance : BendingShape :=
  { polyline := [⟨230, 0, 0⟩, ⟨230, 140, 0⟩, ⟨230, 140, 50⟩, ⟨230, 0, 50⟩],
    diameter := 10, steelGrade := 4, concreteGrade := -1,
    bendingRollers := [4, 4], shapeType := 0 }

/-- The full output of `place_by_polygon` in the concrete scenario. -/
def exPlacementResult : List BarPlacement :=
  [⟨7, 3, exStartInstance, exEndInstance⟩]

/-- The output of `place_in_line` on the concrete linear scenario. -/
def exLinePlacements : List BarPlacement :=
  [⟨7, 1, exShapeA, exShapeA⟩,
   ⟨8, 1, moveShape exShapeA ⟨200, 0, 0⟩, moveShape exShapeA ⟨200, 0, 0⟩⟩]

/-! # Lemmas and theorems -/

theorem qmax_eq_max (a b : ℚ) : qmax a b = max a b := by
  unfold qmax
  exact (max_def a b).symm

theorem qmin_eq_min (a b : ℚ) : qmin a b = min a b := by
  unfold qmin
  exact (min_def a b).symm

theorem listMax_eq_none_iff (l : List ℚ) : listMax l = none ↔ l = [] := by
  cases l <;> simp [listMax]

theorem listMin_eq_none_iff (l : List ℚ) : listMin l = none ↔ l = [] := by
  cases l <;> simp [listMin]

theorem listMax_eq_some_iff (l : List ℚ) :
    ∀ M : ℚ, listMax l = some M ↔ M ∈ l ∧ ∀ x ∈ l, x ≤ M := by
  induction l with
  | nil => simp [listMax]
  | cons a l ih =>
    intro M
    cases h : listMax l with
    | none =>
      have hl : l = [] := (listMax_eq_none_iff l).mp h
      subst hl
      constructor
      · intro hM
        have ha : a = M := Option.some.inj hM
        subst ha
        exact ⟨List.mem_singleton.mpr rfl, fun x hx => le_of_eq (List.mem_singleton.mp hx)⟩
      · rintro ⟨hmem, _⟩
        have : M = a := List.mem_singleton.mp hmem
        subst this
        rfl
    | some m =>
      obtain ⟨hmem, hbound⟩ := (ih m).mp h
      simp only [listMax, h, Option.elim, Option.some.injEq, qmax_eq_max]
      constructor
      · intro hM
        subst hM
        refine ⟨?_, ?_⟩
        · rcases max_choice a m with he | he
          · rw [he]; exact List.mem_cons_self a l
          · rw [he]; exact List.mem_cons_of_mem a hmem
        · intro x hx
          rcases List.mem_cons.mp hx with rfl | hx
          · exact le_max_left _ _
          · exact le_trans (hbound x hx) (le_max_right _ _)
      · rintro ⟨hMmem, hMb⟩
        rcases List.mem_cons.mp hMmem with rfl | hMl
        · exact max_eq_left (hMb m (List.mem_cons_of_mem _ hmem))
        · have h1 : M ≤ m := hbound M hMl
          have h2 : m ≤ M := hMb m (List.mem_cons_of_mem _ hmem)
          have h3 : a ≤ M := hMb a (List.mem_cons_self a l)
          rw [le_antisymm h1 h2]
          exact max_eq_right (h3.trans h1)

theorem listMin_eq_some_iff (l : List ℚ) :
    ∀ m : ℚ, listMin l = some m ↔ m ∈ l ∧ ∀ x ∈ l, m ≤ x := by
  induction l with
  | nil => simp [listMin]
  | cons a l ih =>
    intro M
    cases h : listMin l with
    | none =>
      have hl : l = [] := (listMin_eq_none_iff l).mp h
      subst hl
      constructor
      · intro hM
        have ha : a = M := Option.some.inj hM
        subst ha
        exact ⟨List.mem_singleton.mpr rfl, fun x hx => le_of_eq (List.mem_singleton.mp hx).symm⟩
      · rintro ⟨hmem, _⟩
        have : M = a := List.mem_singleton.mp hmem
        subst this
        rfl
    | some m =>
      obtain ⟨hmem, hbound⟩ := (ih m).mp h
      simp only [listMin, h, Option.elim, Option.some.injEq, qmin_eq_min]
      constructor
      · intro hM
        subst hM
        refine ⟨?_, ?_⟩
        · rcases min_choice a m with he | he
          · rw [he]; exact List.mem_cons_self a l
          · rw [he]; exact List.mem_cons_of_mem a hmem
        · intro x hx
          rcases List.mem_cons.mp hx with rfl | hx
          · exact min_le_left _ _
          · exact le_trans (min_le_right _ _) (hbound x hx)
      · rintro ⟨hMmem, hMb⟩
        rcases List.mem_cons.mp hMmem with rfl | hMl
        · exact min_eq_left (hMb m (List.mem_cons_of_mem _ hmem))
        · have h1 : m ≤ M := hbound M hMl
          have h2 : M ≤ m := hMb m (List.mem_cons_of_mem _ hmem)
          have h3 : M ≤ a := hMb a (List.mem_cons_self a l)
          rw [le_antisymm h2 h1]
          exact min_eq_right (h1.trans h3)

theorem exists_listMax (l : List ℚ) (h : l ≠ []) : ∃ M, listMax l = some M := by
  cases hm : listMax l with
  | none => exact absurd ((listMax_eq_none_iff l).mp hm) h
  | some M => exact ⟨M, rfl⟩

theorem exists_listMin (l : List ℚ) (h : l ≠ []) : ∃ m, listMin l = some m := by
  cases hm : listMin l with
  | none => exact absurd ((listMin_eq_none_iff l).mp hm) h
  | some m => exact ⟨m, rfl⟩

theorem markedVals_subset (T : Finset ℕ) :
    ∀ (l : List ℚ) (i : ℕ) (x : ℚ), x ∈ markedVals T i l → x ∈ l := by
  intro l
  induction l with
  | nil => intro i x h; simp [markedVals] at h
  | cons a l ih =>
    intro i x h
    by_cases hi : i ∈ T
    · simp only [markedVals, if_pos hi] at h
      rcases List.mem_cons.mp h with rfl | h
      · exact List.mem_cons_self _ _
      · exact List.mem_cons_of_mem _ (ih _ _ h)
    · simp only [markedVals, if_neg hi] at h
      exact List.mem_cons_of_mem _ (ih _ _ h)

theorem unmarkedVals_subset (T : Finset ℕ) :
    ∀ (l : List ℚ) (i : ℕ) (x : ℚ), x ∈ unmarkedVals T i l → x ∈ l := by
  intro l
  induction l with
  | nil => intro i x h; simp [unmarkedVals] at h
  | cons a l ih =>
    intro i x h
    by_cases hi : i ∈ T
    · simp only [unmarkedVals, if_pos hi] at h
      exact List.mem_cons_of_mem _ (ih _ _ h)
    · simp only [unmarkedVals, if_neg hi] at h
      rcases List.mem_cons.mp h with rfl | h
      · exact List.mem_cons_self _ _
      · exact List.mem_cons_of_mem _ (ih _ _ h)

theorem mem_marked_or_unmarked (T : Finset ℕ) :
    ∀ (l : List ℚ) (i : ℕ) (x : ℚ), x ∈ l →
      x ∈ markedVals T i l ∨ x ∈ unmarkedVals T i l := by
  intro l
  induction l with
  | nil => intro i x h; simp at h
  | cons a l ih =>
    intro i x h
    rcases List.mem_cons.mp h with rfl | h
    · by_cases hi : i ∈ T
      · left; simp only [markedVals, if_pos hi]; exact List.mem_cons_self _ _
      · right; simp only [unmarkedVals, if_neg hi]; exact List.mem_cons_self _ _
    · rcases ih (i + 1) x h with hm | hu
      · left
        by_cases hi : i ∈ T
        · simp only [markedVals, if_pos hi]
          exact List.mem_cons_of_mem _ hm
        · simpa only [markedVals, if_neg hi] using hm
      · right
        by_cases hi : i ∈ T
        · simpa only [unmarkedVals, if_pos hi] using hu
        · simp only [unmarkedVals, if_neg hi]
          exact List.mem_cons_of_mem _ hu

theorem mem_moveHeights (T : Finset ℕ) (d : ℚ) :
    ∀ (l : List ℚ) (i : ℕ) (x : ℚ),
      x ∈ moveHeights T d i l ↔
        (∃ y ∈ markedVals T i l, x = y + d) ∨ x ∈ unmarkedVals T i l := by
  intro l
  induction l with
  | nil => intro i x; simp [moveHeights, markedVals, unmarkedVals]
  | cons a l ih =>
    intro i x
    by_cases hi : i ∈ T
    · simp only [moveHeights, markedVals, unmarkedVals, if_pos hi]
      constructor
      · intro hx
        rcases List.mem_cons.mp hx with hxa | hx2
        · exact Or.inl ⟨a, List.mem_cons_self a _, hxa⟩
        · rcases (ih (i + 1) x).mp hx2 with ⟨y, hy, hxy⟩ | hq
          · exact Or.inl ⟨y, List.mem_cons_of_mem a hy, hxy⟩
          · exact Or.inr hq
      · intro hx
        rcases hx with ⟨y, hy, hxy⟩ | hq
        · rcases List.mem_cons.mp hy with hya | hy2
          · subst hya
            exact List.mem_cons.mpr (Or.inl hxy)
          · exact List.mem_cons.mpr (Or.inr ((ih (i + 1) x).mpr (Or.inl ⟨y, hy2, hxy⟩)))
        · exact List.mem_cons.mpr (Or.inr ((ih (i + 1) x).mpr (Or.inr hq)))
    · simp only [moveHeights, markedVals, unmarkedVals, if_neg hi]
      constructor
      · intro hx
        rcases List.mem_cons.mp hx with hxa | hx2
        · exact Or.inr (List.mem_cons.mpr (Or.inl hxa))
        · rcases (ih (i + 1) x).mp hx2 with hP | hq
          · exact Or.inl hP
          · exact Or.inr (List.mem_cons.mpr (Or.inr hq))
      · intro hx
        rcases hx with hP | hq
        · exact List.mem_cons.mpr (Or.inr ((ih (i + 1) x).mpr (Or.inl hP)))
        · rcases List.mem_cons.mp hq with hxa | hq2
          · exact List.mem_cons.mpr (Or.inl hxa)
          · exact List.mem_cons.mpr (Or.inr ((ih (i + 1) x).mpr (Or.inr hq2)))

theorem exists_top_of_markedVals_ne_nil (T : Finset ℕ) :
    ∀ (l : List ℚ) (i : ℕ), markedVals T i l ≠ [] → ∃ j, j ∈ T := by
  intro l
  induction l with
  | nil => intro i h; simp [markedVals] at h
  | cons a l ih =>
    intro i h
    by_cases hi : i ∈ T
    · exact ⟨i, hi⟩
    · simp only [markedVals, if_neg hi] at h
      exact ih _ h

theorem dot3_add3 (p q v : V3) : dot3 (add3 p q) v = dot3 p v + dot3 q v := by
  unfold dot3 add3
  ring

theorem dot3_smul3 (c : ℚ) (v w : V3) : dot3 (smul3 c v) w = c * dot3 v w := by
  unfold dot3 smul3
  ring

theorem dirHeights_movePolyline (v : V3) (hu : dot3 v v = 1) (T : Finset ℕ) (d : ℚ) :
    ∀ (l : List V3) (i : ℕ),
      dirHeights v (movePolyline T (smul3 d v) i l) = moveHeights T d i (dirHeights v l) := by
  intro l
  induction l with
  | nil => intro i; simp [dirHeights, movePolyline, moveHeights]
  | cons p l ih =>
    intro i
    have ih2 := ih (i + 1)
    simp only [dirHeights] at ih2 ⊢
    by_cases hi : i ∈ T
    · simp only [movePolyline, if_pos hi, List.map_cons, moveHeights, List.cons.injEq]
      constructor
      · rw [dot3_add3, dot3_smul3, hu]
        ring
      · exact ih2
    · simp only [movePolyline, if_neg hi, List.map_cons, moveHeights, List.cons.injEq]
      exact ⟨trivial, ih2⟩

theorem distortReachesTarget (u : BendingShapeDistortionUtil) (s : BendingShape) (target : ℚ)
    (hu : dot3 u.distortionVector u.distortionVector = 1)
    (hidx : ValidTopIdx u s) (hOK : DistortOK u s target) :
    ∃ s2, distortShape u s target = .ok s2 ∧ getDistortionDimension u s2 = target := by
  unfold DistortOK at hOK
  obtain ⟨hmk, hun, hsep, hd1, hd2⟩ := hOK
  obtain ⟨j, hj⟩ := exists_top_of_markedVals_ne_nil u.topVertices _ 0 hmk
  have hne : u.topVertices.Nonempty := ⟨j, hj⟩
  have hmaxlt : u.topVertices.max' hne < s.polyline.length :=
    hidx _ (u.topVertices.max'_mem hne)
  obtain ⟨Mt, hMt⟩ := exists_listMax _ hmk
  obtain ⟨mt, hmt⟩ := exists_listMin _ hmk
  obtain ⟨Mu, hMu⟩ := exists_listMax _ hun
  obtain ⟨mu, hmu⟩ := exists_listMin _ hun
  obtain ⟨hMtmem, hMtb⟩ := (listMax_eq_some_iff _ _).mp hMt
  obtain ⟨hmtmem, hmtb⟩ := (listMin_eq_some_iff _ _).mp hmt
  obtain ⟨hMumem, hMub⟩ := (listMax_eq_some_iff _ _).mp hMu
  obtain ⟨hmumem, hmub⟩ := (listMin_eq_some_iff _ _).mp hmu
  set hs := dirHeights u.distortionVector s.polyline with hhs
  have hMall : listMax hs = some Mt := by
    rw [listMax_eq_some_iff]
    refine ⟨markedVals_subset _ _ _ _ hMtmem, ?_⟩
    intro x hx
    rcases mem_marked_or_unmarked u.topVertices hs 0 x hx with hm | hum
    · exact hMtb x hm
    · exact le_trans (hMub x hum) (hsep Mt hMtmem Mu hMumem)
  have hmall : listMin hs = some mu := by
    rw [listMin_eq_some_iff]
    refine ⟨unmarkedVals_subset _ _ _ _ hmumem, ?_⟩
    intro x hx
    rcases mem_marked_or_unmarked u.topVertices hs 0 x hx with hm | hum
    · exact le_trans (hsep mt hmtmem mu hmumem) (hmtb x hm)
    · exact hmub x hum
  have hspread : spreadQ hs = Mt - mu := by
    unfold spreadQ
    rw [hMall, hmall]
  set d := target - spreadQ hs with hddef
  have hMd : Mu ≤ Mt + d := by
    obtain ⟨x, hxmem, hxle⟩ := hd1 Mu hMumem
    have := hMtb x hxmem
    linarith
  have hmd : mu ≤ mt + d := by
    obtain ⟨y, hymem, hyle⟩ := hd2 mt hmtmem
    have := hmub y hymem
    linarith
  have hnew : dirHeights u.distortionVector
      (movePolyline u.topVertices (smul3 d u.distortionVector) 0 s.polyline) =
      moveHeights u.topVertices d 0 hs :=
    dirHeights_movePolyline u.distortionVector hu u.topVertices d s.polyline 0
  have hMnew : listMax (moveHeights u.topVertices d 0 hs) = some (Mt + d) := by
    rw [listMax_eq_some_iff]
    constructor
    · exact (mem_moveHeights _ _ _ _ _).mpr (Or.inl ⟨Mt, hMtmem, rfl⟩)
    · intro x hx
      rcases (mem_moveHeights _ _ _ _ _).mp hx with ⟨y, hymem, rfl⟩ | hum
      · have := hMtb y hymem
        linarith
      · exact le_trans (hMub x hum) hMd
  have hmnew : listMin (moveHeights u.topVertices d 0 hs) = some mu := by
    rw [listMin_eq_some_iff]
    constructor
    · exact (mem_moveHeights _ _ _ _ _).mpr (Or.inr hmumem)
    · intro x hx
      rcases (mem_moveHeights _ _ _ _ _).mp hx with ⟨y, hymem, rfl⟩ | hum
      · have := hmtb y hymem
        linarith
      · exact hmub x hum
  refine ⟨{ s with polyline := movePolyline u.topVertices (smul3 d u.distortionVector) 0 s.polyline }, ?_, ?_⟩
  · unfold distortShape
    rw [dif_pos hne, if_neg (not_le.mpr hmaxlt)]
    rfl
  · unfold getDistortionDimension
    dsimp only
    rw [hnew]
    unfold spreadQ
    rw [hMnew, hmnew]
    have : spreadQ hs = Mt - mu := hspread
    rw [hddef, this]
    ring

theorem movePolyline_length (T : Finset ℕ) (mv : V3) :
    ∀ (l : List V3) (i : ℕ), (movePolyline T mv i l).length = l.length := by
  intro l
  induction l with
  | nil => intro i; rfl
  | cons p l ih =>
    intro i
    simp only [movePolyline, List.length_cons, ih]

theorem movePolyline_get (T : Finset ℕ) (mv : V3) :
    ∀ (l : List V3) (i j : ℕ),
      (movePolyline T mv i l).get? j =
        (l.get? j).map (fun p => if i + j ∈ T then add3 p mv else p) := by
  intro l
  induction l with
  | nil => intro i j; rfl
  | cons p l ih =>
    intro i j
    cases j with
    | zero => simp [movePolyline]
    | succ jj =>
      simp only [movePolyline, List.get?]
      rw [ih (i + 1) jj]
      have harith : i + 1 + jj = i + (jj + 1) := by omega
      rw [harith]

/-- C2 (corrected), counterexample: at a shape whose *bottom* vertex is
the marked one — an input satisfying all of the claim's hypotheses
(non-empty marked set, indices in range, unit hence non-zero
direction) — `distort(shape, 15)` produces a shape whose measured
dimension is `5`, not `15`: moving the low vertex up by
`delta = 15 - 10` shrinks the shape instead of stretching it to the
target. -/
theorem claim2_counterexample :
    exUtilBottom.topVertices ≠ ∅ ∧
    ValidTopIdx exUtilBottom exShapeA ∧
    dot3 exUtilBottom.distortionVector exUtilBottom.distortionVector = 1 ∧
    (distortShape exUtilBottom exShapeA 15).map (getDistortionDimension exUtilBottom) =
      .ok 5 ∧
    (5 : ℚ) ≠ 15 := by
  with_unfolding_all decide

/-- C2 (corrected, amended): `distort(shape, target)` followed by
`current_dimension(shape)` gives exactly `target` (exact arithmetic in
place of float tolerance) *provided* the marked-vertex set is a true
top part: some vertex is marked, some is not, every marked vertex lies
at least as high along the (unit) distortion direction as every
unmarked one, and the move keeps the marked extremes above the
unmarked ones (`DistortOK`; automatic when `target` is at least the
prior dimension).  Without these conditions the equality fails
(`claim2_counterexample`). -/
theorem claim2_distort_dimension_amended (u : BendingShapeDistortionUtil)
    (s : BendingShape) (target : ℚ)
    (hu : dot3 u.distortionVector u.distortionVector = 1)
    (hidx : ValidTopIdx u s) (hOK : DistortOK u s target) :
    ∃ s2, distortShape u s target = .ok s2 ∧ getDistortionDimension u s2 = target :=
  distortReachesTarget u s target hu hidx hOK

/-- Witness for C2's amended theorem at a concrete shape with the top
vertex marked. -/
theorem claim2_witness :
    ∃ s2, distortShape exUtilTop exShapeA 15 = .ok s2 ∧
      getDistortionDimension exUtilTop s2 = 15 :=
  claim2_distort_dimension_amended exUtilTop exShapeA 15
    (by with_unfolding_all decide) (by with_unfolding_all decide)
    (by with_unfolding_all decide)

/-- C7 (confirmed): on a valid non-empty marked set, `distort`
succeeds and translates exactly the marked vertices, each by the same
vector `delta • direction` with `delta = target - current_dimension`
(for the unit direction the code produces after normalizing, this is
the vector of signed length `delta` along the distortion direction);
every unmarked vertex and every scalar attribute (diameter, grades,
bending rollers, shape type) is unchanged. -/
theorem claim7_distort_frame_effect (u : BendingShapeDistortionUtil)
    (s : BendingShape) (target : ℚ)
    (_hu : dot3 u.distortionVector u.distortionVector = 1)
    (hne : u.topVertices.Nonempty) (hidx : ValidTopIdx u s) :
    ∃ s2, distortShape u s target = .ok s2 ∧
      s2.diameter = s.diameter ∧ s2.steelGrade = s.steelGrade ∧
      s2.concreteGrade = s.concreteGrade ∧ s2.bendingRollers = s.bendingRollers ∧
      s2.shapeType = s.shapeType ∧
      s2.polyline.length = s.polyline.length ∧
      (∀ i, i ∈ u.topVertices → s2.polyline.get? i = (s.polyline.get? i).map
        (fun p => add3 p (smul3 (target - getDistortionDimension u s) u.distortionVector))) ∧
      (∀ i, i ∉ u.topVertices → s2.polyline.get? i = s.polyline.get? i) := by
  have hmaxlt : u.topVertices.max' hne < s.polyline.length :=
    hidx _ (u.topVertices.max'_mem hne)
  refine ⟨{ s with polyline := movePolyline u.topVertices (smul3 (target - getDistortionDimension u s) u.distortionVector) 0 s.polyline }, ?_, rfl, rfl, rfl, rfl, rfl, ?_, ?_, ?_⟩
  · unfold distortShape
    rw [dif_pos hne, if_neg (not_le.mpr hmaxlt)]
  · exact movePolyline_length _ _ _ _
  · intro i hi
    rw [movePolyline_get]
    cases s.polyline.get? i with
    | none => rfl
    | some p => simp [Nat.zero_add, hi]
  · intro i hi
    rw [movePolyline_get]
    cases s.polyline.get? i with
    | none => rfl
    | some p => simp [Nat.zero_add, hi]

/-- Witness for C7 at a concrete shape and utility. -/
theorem claim7_witness :
    ∃ s2, distortShape exUtilTop exShapeA 15 = .ok s2 ∧
      s2.diameter = exShapeA.diameter ∧ s2.steelGrade = exShapeA.steelGrade ∧
      s2.concreteGrade = exShapeA.concreteGrade ∧
      s2.bendingRollers = exShapeA.bendingRollers ∧
      s2.shapeType = exShapeA.shapeType ∧
      s2.polyline.length = exShapeA.polyline.length ∧
      (∀ i, i ∈ exUtilTop.topVertices → s2.polyline.get? i = (exShapeA.polyline.get? i).map
        (fun p => add3 p (smul3 (15 - getDistortionDimension exUtilTop exShapeA)
          exUtilTop.distortionVector))) ∧
      (∀ i, i ∉ exUtilTop.topVertices → s2.polyline.get? i = exShapeA.polyline.get? i) :=
  claim7_distort_frame_effect exUtilTop exShapeA 15
    (by with_unfolding_all decide) (by with_unfolding_all decide)
    (by with_unfolding_all decide)

/-- C8 (confirmed): on a non-empty marked set, `distort` fails with
the `VertexIndexOutOfRange` error (`ValueError` in `distort_shape`)
iff some marked index is ≥ the polyline's vertex count.  In the
embedding the check precedes the vertex loop, so an error result
carries no modified shape — the source raises before any
`SetPoint` call. -/
theorem claim8_vertex_index_out_of_range (u : BendingShapeDistortionUtil)
    (s : BendingShape) (target : ℚ) (hne : u.topVertices.Nonempty) :
    distortShape u s target = .error .vertexIndexOutOfRange ↔
      ∃ i ∈ u.topVertices, s.polyline.length ≤ i := by
  unfold distortShape
  rw [dif_pos hne]
  by_cases hle : s.polyline.length ≤ u.topVertices.max' hne
  · rw [if_pos hle]
    exact ⟨fun _ => ⟨u.topVertices.max' hne, u.topVertices.max'_mem hne, hle⟩, fun _ => rfl⟩
  · rw [if_neg hle]
    constructor
    · intro h
      exact Except.noConfusion h
    · rintro ⟨i, hi, hlen⟩
      exact absurd (hlen.trans (Finset.le_max' _ i hi)) hle

/-- Witness for C8: a marked index 5 on a two-vertex shape fails with
`VertexIndexOutOfRange`. -/
theorem claim8_witness :
    distortShape exUtilOutOfRange exShapeA 0 = .error .vertexIndexOutOfRange :=
  (claim8_vertex_index_out_of_range exUtilOutOfRange exShapeA 0
    (by with_unfolding_all decide)).mpr ⟨5, by with_unfolding_all decide,
      by with_unfolding_all decide⟩

/-- C10 (confirmed): with an empty marked-vertex set, `distort_shape`
evaluates `max(self.top_vertices)` first, so for every shape it fails
with Python's `max() arg is an empty sequence` `ValueError`
(`maxOfEmptySequence`) before the documented index-range check is
decided — an error distinct from `VertexIndexOutOfRange`; a non-empty
marked set is an undocumented precondition. -/
theorem claim10_empty_marked_set (v : V3) (s : BendingShape) (target : ℚ) :
    distortShape ⟨∅, v⟩ s target = .error .maxOfEmptySequence ∧
      PErr.maxOfEmptySequence ≠ PErr.vertexIndexOutOfRange := by
  constructor
  · unfold distortShape
    rw [dif_neg]
    exact Finset.not_nonempty_empty
  · decide

theorem splitOnChar_ne_nil (sep : Char) (l : List Char) : splitOnChar sep l ≠ [] := by
  cases l with
  | nil => simp [splitOnChar]
  | cons c cs =>
    by_cases h : c = sep
    · simp [splitOnChar, h]
    · simp only [splitOnChar, if_neg h]
      cases splitOnChar sep cs <;> simp

theorem splitOnChar_single (sep : Char) :
    ∀ (l x : List Char), splitOnChar sep l = [x] → l = x ∧ sep ∉ x := by
  intro l
  induction l with
  | nil =>
    intro x h
    simp only [splitOnChar, List.cons.injEq, and_true] at h
    subst h
    exact ⟨rfl, by simp⟩
  | cons c cs ih =>
    intro x h
    by_cases hc : c = sep
    · simp only [splitOnChar, if_pos hc, List.cons.injEq] at h
      exact absurd h.2 (splitOnChar_ne_nil sep cs)
    · simp only [splitOnChar, if_neg hc] at h
      cases hr : splitOnChar sep cs with
      | nil => exact absurd hr (splitOnChar_ne_nil sep cs)
      | cons hd tl =>
        rw [hr] at h
        injection h with h1 h2
        subst h2
        obtain ⟨rfl, hn⟩ := ih hd hr
        refine ⟨h1, ?_⟩
        rw [← h1]
        intro hm
        rcases List.mem_cons.mp hm with he | hm2
        · exact hc he.symm
        · exact hn hm2

theorem splitOnChar_pair (sep : Char) :
    ∀ (l a b : List Char), splitOnChar sep l = [a, b] →
      l = a ++ sep :: b ∧ sep ∉ a ∧ sep ∉ b := by
  intro l
  induction l with
  | nil =>
    intro a b h
    simp [splitOnChar] at h
  | cons c cs ih =>
    intro a b h
    by_cases hc : c = sep
    · simp only [splitOnChar, if_pos hc, List.cons.injEq] at h
      obtain ⟨h1, h2⟩ := h
      obtain ⟨rfl, hnb⟩ := splitOnChar_single sep cs b h2
      subst hc
      refine ⟨?_, ?_, hnb⟩
      · rw [← h1]; rfl
      · rw [← h1]; simp
    · simp only [splitOnChar, if_neg hc] at h
      cases hr : splitOnChar sep cs with
      | nil => exact absurd hr (splitOnChar_ne_nil sep cs)
      | cons hd tl =>
        rw [hr] at h
        injection h with h1 h2
        have hcs : splitOnChar sep cs = [hd, b] := by rw [hr, h2]
        obtain ⟨hdec, hna, hnb⟩ := ih hd b hcs
        refine ⟨?_, ?_, hnb⟩
        · rw [← h1, hdec]; rfl
        · rw [← h1]
          intro hm
          rcases List.mem_cons.mp hm with he | hm2
          · exact hc he.symm
          · exact hna hm2

theorem splitOnChar_not_mem (sep : Char) :
    ∀ (l : List Char), sep ∉ l → splitOnChar sep l = [l] := by
  intro l
  induction l with
  | nil => intro _; rfl
  | cons c cs ih =>
    intro h
    have hc : ¬c = sep := fun he => h (by rw [he]; exact List.mem_cons_self _ _)
    have hcs : sep ∉ cs := fun hm => h (List.mem_cons_of_mem _ hm)
    simp only [splitOnChar, if_neg hc, ih hcs]

theorem digitsOK_chars (a : List Char) (h : digitsOK a = true) :
    ∀ ch ∈ a, ch.isDigit = true := by
  unfold digitsOK at h
  rw [Bool.and_eq_true, List.all_eq_true] at h
  exact h.2

theorem spacingOK_chars (s : List Char) (h : spacingOK s = true) :
    ∀ ch ∈ s, ch.isDigit = true ∨ ch = '.' := by
  unfold spacingOK at h
  cases hr : splitOnChar '.' s with
  | nil => rw [hr] at h; exact absurd h (by simp)
  | cons a tl =>
    cases tl with
    | nil =>
      rw [hr] at h
      obtain ⟨rfl, _⟩ := splitOnChar_single '.' s a hr
      exact fun ch hm => Or.inl (digitsOK_chars _ h ch hm)
    | cons b tl2 =>
      cases tl2 with
      | nil =>
        rw [hr] at h
        rw [Bool.and_eq_true] at h
        obtain ⟨heq, _, _⟩ := splitOnChar_pair '.' s a b hr
        intro ch hm
        rw [heq] at hm
        rcases List.mem_append.mp hm with hma | hmb
        · exact Or.inl (digitsOK_chars _ h.1 ch hma)
        · rcases List.mem_cons.mp hmb with he | hmb2
          · exact Or.inr he
          · exact Or.inl (digitsOK_chars _ h.2 ch hmb2)
      | cons _ _ => rw [hr] at h; exact absurd h (by simp)

theorem noStarOK_chars (s : List Char) (h : noStarOK s = true) :
    ∀ ch ∈ s, ch.isDigit = true ∨ ch = '.' := by
  unfold noStarOK at h
  cases hr : splitOnChar '.' s with
  | nil => rw [hr] at h; exact absurd h (by simp)
  | cons a tl =>
    cases tl with
    | nil =>
      rw [hr] at h
      rw [Bool.and_eq_true, List.all_eq_true] at h
      obtain ⟨rfl, _⟩ := splitOnChar_single '.' s a hr
      exact fun ch hm => Or.inl (h.2 ch hm)
    | cons b tl2 =>
      cases tl2 with
      | nil =>
        rw [hr] at h
        rw [Bool.and_eq_true, Bool.and_eq_true] at h
        obtain ⟨heq, _, _⟩ := splitOnChar_pair '.' s a b hr
        intro ch hm
        rw [heq] at hm
        rw [List.all_eq_true] at h
        rcases List.mem_append.mp hm with hma | hmb
        · exact Or.inl (h.1.2 ch hma)
        · rcases List.mem_cons.mp hmb with he | hmb2
          · exact Or.inr he
          · exact Or.inl (digitsOK_chars _ h.2 ch hmb2)
      | cons _ _ => rw [hr] at h; exact absurd h (by simp)

theorem chars_no_dollar (s : List Char)
    (h : ∀ ch ∈ s, ch.isDigit = true ∨ ch = '.') : '$' ∉ s := by
  intro hm
  rcases h _ hm with hd | hd
  · exact absurd hd (by decide)
  · exact absurd hd (by decide)

theorem chars_no_star (s : List Char)
    (h : ∀ ch ∈ s, ch.isDigit = true ∨ ch = '.') : '*' ∉ s := by
  intro hm
  rcases h _ hm with hd | hd
  · exact absurd hd (by decide)
  · exact absurd hd (by decide)

theorem replaceDollar_not_mem :
    ∀ (r : List Char), '$' ∉ r → replaceDollar r = r := by
  intro r
  induction r with
  | nil => intro _; rfl
  | cons c cs ih =>
    intro h
    have hc : ¬c = '$' := fun he => h (by rw [← he]; exact List.mem_cons_self _ _)
    have hcs : '$' ∉ cs := fun hm => h (List.mem_cons_of_mem _ hm)
    simp only [replaceDollar, List.map_cons, if_neg hc]
    have := ih hcs
    unfold replaceDollar at this
    rw [this]

theorem evalLit_eq_numVal (cs : List Char) (v : ℚ) (h : evalLit cs = some v) :
    numVal cs = v := by
  unfold evalLit at h
  unfold numVal
  cases hr : splitOnChar '.' cs with
  | nil => rw [hr] at h; exact absurd h (by simp)
  | cons a tl =>
    cases tl with
    | nil =>
      rw [hr] at h
      dsimp only at h ⊢
      split_ifs at h with hcond
      exact Option.some.inj h
    | cons b tl2 =>
      cases tl2 with
      | nil =>
        rw [hr] at h
        dsimp only at h ⊢
        split_ifs at h with hcond
        exact Option.some.inj h
      | cons _ _ => rw [hr] at h; exact absurd h (by simp)

theorem floatVal_eq_numVal (cs : List Char) (v : ℚ) (h : floatVal cs = some v) :
    numVal cs = v := by
  unfold floatVal at h
  unfold numVal
  cases hr : splitOnChar '.' cs with
  | nil => rw [hr] at h; exact absurd h (by simp)
  | cons a tl =>
    cases tl with
    | nil =>
      rw [hr] at h
      dsimp only at h ⊢
      split_ifs at h with hcond
      exact Option.some.inj h
    | cons b tl2 =>
      cases tl2 with
      | nil =>
        rw [hr] at h
        dsimp only at h ⊢
        split_ifs at h with hcond
        exact Option.some.inj h
      | cons _ _ => rw [hr] at h; exact absurd h (by simp)

theorem evalChunk_eq_spec (d : ℚ) (c : List Char) (hOK : chunkOK c = true) :
    ∀ r : RegionTuple, evalChunk d c = .ok r → r = specRegionOfChunk d c := by
  cases c with
  | nil => simp [chunkOK] at hOK
  | cons ch r0 =>
    by_cases hch : ch = '$'
    · subst hch
      simp only [chunkOK, if_pos rfl] at hOK
      cases r0 with
      | nil => simp [dollarTailOK, spacingOK, splitOnChar, digitsOK] at hOK
      | cons ch2 s =>
        by_cases h2 : ch2 = '*'
        · subst h2
          simp only [dollarTailOK, if_pos rfl] at hOK
          intro r h
          have hchars := spacingOK_chars s hOK
          have hnds : '$' ∉ s := chars_no_dollar s hchars
          have hnss : '*' ∉ s := chars_no_star s hchars
          have hmem : '$' ∈ '$' :: '*' :: s := List.mem_cons_self _ _
          unfold evalChunk at h
          rw [if_pos hmem] at h
          have hrepl : replaceDollar ('$' :: '*' :: s) = '1' :: '*' :: s := by
            rw [show replaceDollar ('$' :: '*' :: s) = '1' :: '*' :: replaceDollar s from rfl,
              replaceDollar_not_mem s hnds]
          rw [hrepl] at h
          have hsplit : splitOnChar '*' ('1' :: '*' :: s) = [['1'], s] := by
            have hx : splitOnChar '*' ('*' :: s) = [[], s] := by
              rw [show splitOnChar '*' ('*' :: s) = [] :: splitOnChar '*' s from rfl,
                splitOnChar_not_mem '*' s hnss]
            rw [show splitOnChar '*' ('1' :: '*' :: s) =
                (match splitOnChar '*' ('*' :: s) with
                  | [] => [['1']]
                  | h :: t => ('1' :: h) :: t) from rfl, hx]
          have h1lit : evalLit ['1'] = some 1 := by with_unfolding_all decide
          cases hv : evalLit s with
          | none =>
            have hm : optionMapM evalLit [['1'], s] = none := by
              simp only [optionMapM, h1lit, hv]
            have heval : evalPy ('1' :: '*' :: s) = none := by
              unfold evalPy
              rw [hsplit, hm]
            rw [heval] at h
            exact absurd h (by simp)
          | some v =>
            have hm : optionMapM evalLit [['1'], s] = some [1, v] := by
              simp only [optionMapM, h1lit, hv]
            have heval : evalPy ('1' :: '*' :: s) = some ((1 * 1) * v) := by
              unfold evalPy
              rw [hsplit, hm]
              rfl
            rw [heval] at h
            injection h with h2
            rw [← h2]
            rw [show specRegionOfChunk d ('$' :: '*' :: s) = (0, numVal s, d) from rfl]
            rw [evalLit_eq_numVal s v hv, one_mul, one_mul]
        · simp only [dollarTailOK, if_neg h2] at hOK
          intro r h
          have hchars := spacingOK_chars _ hOK
          have hnds : '$' ∉ ch2 :: s := chars_no_dollar _ hchars
          have hnss : '*' ∉ ch2 :: s := chars_no_star _ hchars
          have hmem : '$' ∈ '$' :: ch2 :: s := List.mem_cons_self _ _
          unfold evalChunk at h
          rw [if_pos hmem] at h
          have hrepl : replaceDollar ('$' :: ch2 :: s) = '1' :: ch2 :: s := by
            rw [show replaceDollar ('$' :: ch2 :: s) = '1' :: replaceDollar (ch2 :: s) from rfl,
              replaceDollar_not_mem (ch2 :: s) hnds]
          rw [hrepl] at h
          have hns1 : '*' ∉ '1' :: ch2 :: s := by
            intro hm
            rcases List.mem_cons.mp hm with he | hm2
            · exact absurd he (by decide)
            · exact hnss hm2
          have hsplit : splitOnChar '*' ('1' :: ch2 :: s) = ['1' :: ch2 :: s] :=
            splitOnChar_not_mem _ _ hns1
          cases hv : evalLit ('1' :: ch2 :: s) with
          | none =>
            have hm : optionMapM evalLit ['1' :: ch2 :: s] = none := by
              simp only [optionMapM, hv]
            have heval : evalPy ('1' :: ch2 :: s) = none := by
              unfold evalPy
              rw [hsplit, hm]
            rw [heval] at h
            exact absurd h (by simp)
          | some v =>
            have hm : optionMapM evalLit ['1' :: ch2 :: s] = some [v] := by
              simp only [optionMapM, hv]
            have heval : evalPy ('1' :: ch2 :: s) = some (1 * v) := by
              unfold evalPy
              rw [hsplit, hm]
              rfl
            rw [heval] at h
            injection h with h3
            rw [← h3]
            have hspec : specRegionOfChunk d ('$' :: ch2 :: s) =
                (0, numVal ('1' :: ch2 :: s), d) := by
              unfold specRegionOfChunk
              dsimp only
              rw [if_pos rfl, if_neg h2]
            rw [hspec, evalLit_eq_numVal _ v hv, one_mul]
    · simp only [chunkOK, if_neg hch] at hOK
      unfold starOrBareOK at hOK
      cases hsp : splitOnChar '*' (ch :: r0) with
      | nil => exact absurd hsp (splitOnChar_ne_nil _ _)
      | cons a tl =>
        cases tl with
        | nil =>
          rw [hsp] at hOK
          dsimp only at hOK
          obtain ⟨hceq, hnstar⟩ := splitOnChar_single '*' (ch :: r0) a hsp
          have hchars := noStarOK_chars a hOK
          have hnd : '$' ∉ ch :: r0 := by
            rw [hceq]
            exact chars_no_dollar a hchars
          have hns : '*' ∉ ch :: r0 := by
            rw [hceq]
            exact hnstar
          intro r h
          unfold evalChunk at h
          rw [if_neg hnd, if_neg hns] at h
          cases hv : floatVal (ch :: r0) with
          | none =>
            rw [hv] at h
            exact absurd h (by simp)
          | some v =>
            rw [hv] at h
            injection h with h3
            rw [← h3]
            have hspec : specRegionOfChunk d (ch :: r0) =
                (numVal (ch :: r0), numVal (ch :: r0), d) := by
              unfold specRegionOfChunk
              dsimp only
              rw [if_neg hch, hsp]
            rw [hspec, floatVal_eq_numVal _ v hv]
        | cons b tl2 =>
          cases tl2 with
          | nil =>
            rw [hsp] at hOK
            dsimp only at hOK
            rw [Bool.and_eq_true] at hOK
            obtain ⟨hceq, hna, hnb⟩ := splitOnChar_pair '*' (ch :: r0) a b hsp
            have hcharsa := digitsOK_chars a hOK.1
            have hcharsb := spacingOK_chars b hOK.2
            have hnd : '$' ∉ ch :: r0 := by
              rw [hceq]
              intro hm
              rcases List.mem_append.mp hm with hma | hmb
              · exact absurd (hcharsa _ hma) (by decide)
              · rcases List.mem_cons.mp hmb with he | hmb2
                · exact absurd he (by decide)
                · rcases hcharsb _ hmb2 with hdd | hdd
                  · exact absurd hdd (by decide)
                  · exact absurd hdd (by decide)
            have hstar : '*' ∈ ch :: r0 := by
              rw [hceq]
              exact List.mem_append.mpr (Or.inr (List.mem_cons_self _ _))
            intro r h
            unfold evalChunk at h
            rw [if_neg hnd, if_pos hstar] at h
            have hget : (splitOnChar '*' (ch :: r0)).getD 1 [] = b := by
              rw [hsp]
              rfl
            rw [hget] at h
            cases hva : evalLit a with
            | none =>
              have hm : optionMapM evalLit [a, b] = none := by
                simp only [optionMapM, hva]
              have heval : evalPy (ch :: r0) = none := by
                unfold evalPy
                rw [hsp, hm]
              rw [heval] at h
              exact absurd h (by simp)
            | some va =>
              cases hvb : evalLit b with
              | none =>
                have hm : optionMapM evalLit [a, b] = none := by
                  simp only [optionMapM, hva, hvb]
                have heval : evalPy (ch :: r0) = none := by
                  unfold evalPy
                  rw [hsp, hm]
                rw [heval] at h
                exact absurd h (by simp)
              | some vb =>
                have hm : optionMapM evalLit [a, b] = some [va, vb] := by
                  simp only [optionMapM, hva, hvb]
                have heval : evalPy (ch :: r0) = some ((1 * va) * vb) := by
                  unfold evalPy
                  rw [hsp, hm]
                  rfl
                rw [heval] at h
                cases hf : floatVal b with
                | none =>
                  rw [hf] at h
                  exact absurd h (by simp)
                | some f =>
                  rw [hf] at h
                  injection h with h3
                  rw [← h3]
                  have hspec : specRegionOfChunk d (ch :: r0) =
                      (numVal a * numVal b, numVal b, d) := by
                    unfold specRegionOfChunk
                    dsimp only
                    rw [if_neg hch, hsp]
                  have hfb : f = vb := by
                    rw [← floatVal_eq_numVal b f hf, evalLit_eq_numVal b vb hvb]
                  rw [hspec, evalLit_eq_numVal a va hva, evalLit_eq_numVal b vb hvb,
                    hfb, one_mul]
          | cons _ _ =>
            rw [hsp] at hOK
            dsimp only at hOK
            exact absurd hOK (by simp)

theorem exceptMapM_ok_map {α β : Type} (f : α → Except PErr β) (g : α → β) :
    ∀ (l : List α), (∀ a ∈ l, ∀ b, f a = .ok b → b = g a) →
      ∀ l2, exceptMapM f l = .ok l2 → l2 = l.map g := by
  intro l
  induction l with
  | nil =>
    intro _ l2 h
    simp only [exceptMapM] at h
    injection h with h2
    rw [← h2]
    rfl
  | cons a l ih =>
    intro hfg l2 h
    simp only [exceptMapM] at h
    cases hfa : f a with
    | error e =>
      rw [hfa] at h
      exact absurd h (by simp)
    | ok b =>
      rw [hfa] at h
      cases hrec : exceptMapM f l with
      | error e =>
        rw [hrec] at h
        exact absurd h (by simp)
      | ok bs =>
        rw [hrec] at h
        injection h with h2
        have hb : b = g a := hfg a (List.mem_cons_self _ _) b hfa
        have hbs : bs = l.map g :=
          ih (fun x hx => hfg x (List.mem_cons_of_mem _ hx)) bs hrec
        rw [← h2, hb, hbs, List.map_cons]

theorem exceptMapM_error_mem {α β : Type} (f : α → Except PErr β) :
    ∀ (l : List α) (e : PErr), exceptMapM f l = .error e → ∃ a ∈ l, f a = .error e := by
  intro l
  induction l with
  | nil =>
    intro e h
    simp only [exceptMapM] at h
    exact absurd h (by simp)
  | cons a l ih =>
    intro e h
    simp only [exceptMapM] at h
    cases hfa : f a with
    | error e2 =>
      rw [hfa] at h
      injection h with h2
      exact ⟨a, List.mem_cons_self _ _, by rw [hfa, h2]⟩
    | ok b =>
      rw [hfa] at h
      cases hrec : exceptMapM f l with
      | error e2 =>
        rw [hrec] at h
        injection h with h2
        obtain ⟨x, hx, hfx⟩ := ih e2 hrec
        exact ⟨x, List.mem_cons_of_mem _ hx, by rw [hfx, h2]⟩
      | ok bs =>
        rw [hrec] at h
        exact absurd h (by simp)

theorem evalChunk_error_ne_malformed (d : ℚ) (c : List Char) (e : PErr)
    (h : evalChunk d c = .error e) : e ≠ .malformedSpecification := by
  unfold evalChunk at h
  split_ifs at h with h1 h2
  · cases hv : evalPy (replaceDollar c) with
    | none =>
      rw [hv] at h
      injection h with h3
      rw [← h3]
      decide
    | some v =>
      rw [hv] at h
      exact absurd h (by simp)
  · cases hv : evalPy c with
    | none =>
      rw [hv] at h
      cases hf : floatVal ((splitOnChar '*' c).getD 1 []) with
      | none =>
        rw [hf] at h
        injection h with h3
        rw [← h3]
        decide
      | some f =>
        rw [hf] at h
        injection h with h3
        rw [← h3]
        decide
    | some v =>
      rw [hv] at h
      cases hf : floatVal ((splitOnChar '*' c).getD 1 []) with
      | none =>
        rw [hf] at h
        injection h with h3
        rw [← h3]
        decide
      | some f =>
        rw [hf] at h
        exact absurd h (by simp)
  · cases hv : floatVal c with
    | none =>
      rw [hv] at h
      injection h with h3
      rw [← h3]
      decide
    | some v =>
      rw [hv] at h
      exact absurd h (by simp)

/-- C4 (confirmed): the parser fails with `MalformedSpecification`
(the guard's `ValueError("Regions string is invalid")`) exactly when
the string fails the anchored pattern or its number of `'$'`
characters differs from one — the per-chunk loop can only fail with
the distinct `eval` / `float` errors; and an error result carries no
region list.  In particular `"5*100+10*125"` (no `'$'`) and
`"5*100+$*125+$*100"` (two `'$'`) are rejected. -/
theorem claim4_malformed_specification :
    (∀ (s : List Char) (d : ℚ),
      placementRegionsFromString s d = .error .malformedSpecification ↔
        ¬(regionsPatternOK s = true ∧ countChar '$' s = 1)) ∧
    (∀ d : ℚ, placementRegionsFromString (("5*100+10*125").toList) d =
      .error .malformedSpecification) ∧
    (∀ d : ℚ, placementRegionsFromString (("5*100+$*125+$*100").toList) d =
      .error .malformedSpecification) := by
  refine ⟨?_, ?_, ?_⟩
  · intro s d
    by_cases hg : regionsPatternOK s = true ∧ countChar '$' s = 1
    · simp only [placementRegionsFromString, if_pos hg]
      constructor
      · intro h
        obtain ⟨a, _, hfa⟩ := exceptMapM_error_mem _ _ _ h
        exact absurd rfl (evalChunk_error_ne_malformed d a _ hfa)
      · intro h
        exact absurd hg h
    · simp only [placementRegionsFromString, if_neg hg]
      exact ⟨fun _ => hg, fun _ => trivial⟩
  · intro d
    rfl
  · intro d
    rfl

/-- C3 (corrected), counterexample: the grammar admits an open term
with the star omitted; on `"$250"` the code replaces `'$'` by `'1'`
and evaluates the concatenated digits, so the spacing becomes 1250 —
not the term's spacing value 250 claimed by the
"open `'$'` term yields `(0, S, d)`" rule. -/
theorem claim3_counterexample :
    placementRegionsFromString (("$250").toList) 16 = .ok [(0, 1250, 16)] ∧
    ((0 : ℚ), (1250 : ℚ), (16 : ℚ)) ≠ ((0 : ℚ), (250 : ℚ), (16 : ℚ)) := by
  with_unfolding_all decide

/-- C3 (corrected, amended): every accepted region string yields
exactly one region tuple per `'+'`-separated term, in order, with the
grammar-level semantics `specRegionOfChunk`: `N*S ↦ (N*S, S, d)`,
bare `S ↦ (S, S, d)`, `$*S ↦ (0, S, d)`, and — the amendment — an open
term written `$S` (star omitted) yields `(0, v, d)` where `v` is the
value of the digits of `S` with `'1'` prefixed.  The spec's example
`parse("5*100+10*125+$*250", d)` holds as stated. -/
theorem claim3_regions_amended :
    (∀ (s : List Char) (d : ℚ) (l : List RegionTuple),
      placementRegionsFromString s d = .ok l →
        l = (splitOnChar '+' s).map (specRegionOfChunk d)) ∧
    (∀ d : ℚ, placementRegionsFromString (("5*100+10*125+$*250").toList) d =
      .ok [(500, 100, d), (1250, 125, d), (0, 250, d)]) := by
  constructor
  · intro s d l h
    unfold placementRegionsFromString at h
    split_ifs at h with hg
    have hall : ∀ c ∈ splitOnChar '+' s, chunkOK c = true := by
      have hp := hg.1
      unfold regionsPatternOK at hp
      rw [List.all_eq_true] at hp
      exact hp
    exact exceptMapM_ok_map _ _ _
      (fun a ha b hb => evalChunk_eq_spec d a (hall a ha) b hb) l h
  · intro d
    with_unfolding_all rfl

/-- Witness for C3's amended theorem: the parsed output of `"$250"`
matches the grammar-level semantics, spacing 1250 included. -/
theorem claim3_witness :
    [((0 : ℚ), (1250 : ℚ), (16 : ℚ))] =
      (splitOnChar '+' (("$250").toList)).map (specRegionOfChunk 16) :=
  claim3_regions_amended.1 (("$250").toList) 16 [((0 : ℚ), (1250 : ℚ), (16 : ℚ))]
    (by with_unfolding_all decide)

/-- C5 (corrected), counterexample: the claim's example `"5*100+$"` of
a bare-`'$'` open term is rejected with `MalformedSpecification`, not
accepted — the chunk pattern `(\d+|\$)\*?(\d+(\.\d+)?)` demands a
spacing number in every term. -/
theorem claim5_counterexample :
    placementRegionsFromString (("5*100+$").toList) 16 =
      .error .malformedSpecification := by
  with_unfolding_all decide

/-- C5 (corrected, amended): the grammar does *not* admit `'$'` alone
as a term: every specification one of whose `'+'`-separated terms is
exactly `"$"` fails with `MalformedSpecification`; an open term must
carry a spacing value (`$*S`, or `$S` with the star omitted). -/
theorem claim5_bare_dollar_rejected (s : List Char) (d : ℚ)
    (hmem : ['$'] ∈ splitOnChar '+' s) :
    placementRegionsFromString s d = .error .malformedSpecification := by
  have hnot : ¬regionsPatternOK s = true := by
    unfold regionsPatternOK
    intro hall
    rw [List.all_eq_true] at hall
    exact absurd (hall _ hmem) (by decide)
  unfold placementRegionsFromString
  rw [if_neg]
  intro hand
  exact hnot hand.1

/-- Witness for C5's amended theorem at the claim's own example. -/
theorem claim5_witness :
    placementRegionsFromString (("5*100+$").toList) 99 =
      .error .malformedSpecification :=
  claim5_bare_dollar_rejected (("5*100+$").toList) 99 (by with_unfolding_all decide)

theorem polygonLoop_ok (util : BendingShapeDistortionUtil) (l2w : Aff3) (basePos : Int) :
    ∀ (rs : List Region) (idx : ℕ) (st : BendingShape) (pls : List BarPlacement),
      polygonLoop util l2w basePos idx st rs = .ok pls →
      pls.length = rs.length ∧
      ∀ (k : ℕ) (pl : BarPlacement) (r : Region),
        pls.get? k = some pl → rs.get? k = some r →
        ∃ sd ed,
          distortShape util (moveShape st (to3 r.startPnt)) r.heightAtStart = .ok sd ∧
          distortShape util (moveShape st (to3 r.endPnt)) r.heightAtEnd = .ok ed ∧
          pl = transformPlacement l2w ⟨basePos + ((idx + k : ℕ) : Int), r.barCount, sd, ed⟩ := by
  intro rs
  induction rs with
  | nil =>
    intro idx st pls h
    simp only [polygonLoop] at h
    injection h with h2
    rw [← h2]
    exact ⟨rfl, fun k pl r hk _ => by simp at hk⟩
  | cons r rest ih =>
    intro idx st pls h
    simp only [polygonLoop] at h
    cases h1 : distortShape util (moveShape st (to3 r.startPnt)) r.heightAtStart with
    | error e =>
      rw [h1] at h
      exact absurd h (by simp)
    | ok sd =>
      rw [h1] at h
      cases h2 : distortShape util (moveShape st (to3 r.endPnt)) r.heightAtEnd with
      | error e =>
        rw [h2] at h
        exact absurd h (by simp)
      | ok ed =>
        rw [h2] at h
        cases h3 : polygonLoop util l2w basePos (idx + 1) st rest with
        | error e =>
          rw [h3] at h
          exact absurd h (by simp)
        | ok tail =>
          rw [h3] at h
          injection h with h4
          obtain ⟨hlen, hspec⟩ := ih (idx + 1) st tail h3
          constructor
          · rw [← h4]
            simp [hlen]
          · intro k pl rr hk hr
            rw [← h4] at hk
            cases k with
            | zero =>
              simp only [List.get?] at hk hr
              injection hk with hk2
              injection hr with hr2
              refine ⟨sd, ed, ?_, ?_, ?_⟩
              · rw [← hr2]
                exact h1
              · rw [← hr2]
                exact h2
              · rw [← hk2, ← hr2, Nat.add_zero]
            | succ kk =>
              simp only [List.get?] at hk hr
              obtain ⟨sd2, ed2, hh1, hh2, hh3⟩ := hspec kk pl rr hk hr
              refine ⟨sd2, ed2, hh1, hh2, ?_⟩
              rw [hh3]
              have harith : idx + 1 + kk = idx + (kk + 1) := by omega
              rw [harith]

theorem lineLoop_positions (createPl : Int → BendingShape → V3 → V3 → ℚ → BarPlacement)
    (regions : List RegionTuple) (basePos : Int)
    (hcreate : ∀ pos sh a b sp, (createPl pos sh a b sp).position = pos) :
    ∀ (pts : List (V3 × V3)) (idx : ℕ) (sh : BendingShape) (pls : List BarPlacement),
      lineLoop createPl regions basePos idx sh pts = .ok pls →
      pls.length = pts.length ∧
      ∀ (k : ℕ) (pl : BarPlacement), pls.get? k = some pl →
        pl.position = basePos + ((idx + k : ℕ) : Int) := by
  intro pts
  induction pts with
  | nil =>
    intro idx sh pls h
    simp only [lineLoop] at h
    injection h with h2
    rw [← h2]
    exact ⟨rfl, fun k pl hk => by simp at hk⟩
  | cons ab rest ih =>
    obtain ⟨a, b⟩ := ab
    intro idx sh pls h
    simp only [lineLoop] at h
    cases hg : regions.get? idx with
    | none =>
      rw [hg] at h
      exact absurd h (by simp)
    | some reg =>
      rw [hg] at h
      cases hrec : lineLoop createPl regions basePos (idx + 1) (nextShape sh a rest) rest with
      | error e =>
        rw [hrec] at h
        exact absurd h (by simp)
      | ok tail =>
        rw [hrec] at h
        injection h with h2
        obtain ⟨hlen, hpos⟩ := ih (idx + 1) (nextShape sh a rest) tail hrec
        constructor
        · rw [← h2]
          simp [hlen]
        · intro k pl hk
          rw [← h2] at hk
          cases k with
          | zero =>
            simp only [List.get?] at hk
            injection hk with hk2
            rw [← hk2, Nat.add_zero]
            exact hcreate _ _ _ _ _
          | succ kk =>
            simp only [List.get?] at hk
            have := hpos kk pl hk
            rw [this]
            have harith : idx + 1 + kk = idx + (kk + 1) := by omega
            rw [harith]

/-- C9 (confirmed): in both placement variants the `i`-th produced
`BarPlacement` (0-based, output order) carries position
`base_position + i`, so positions are unique and strictly increasing
by one per region.  The linear variant is proved for every
implementation of the external `calculate_length_of_regions` and for
every `create_linear_bar_placement_from_to_by_dist` that carries the
given position into its placement (the interface contract of §4.4). -/
theorem claim9_positions :
    (∀ (calcRegions : List RegionTuple → V3 → V3 → ℚ → ℚ → List (V3 × V3))
      (createPl : Int → BendingShape → V3 → V3 → ℚ → BarPlacement)
      (shape : BendingShape) (basePos : Int) (regionsString : List Char)
      (lineStart lineEnd : V3) (pls : List BarPlacement),
      (∀ pos sh a b sp, (createPl pos sh a b sp).position = pos) →
      placeInLine calcRegions createPl shape basePos regionsString lineStart lineEnd = .ok pls →
      (∀ (k : ℕ) (pl : BarPlacement), pls.get? k = some pl →
        pl.position = basePos + (k : Int)) ∧
      ∀ (i j : ℕ) (pli plj : BarPlacement), pls.get? i = some pli →
        pls.get? j = some plj → i < j → pli.position < plj.position) ∧
    (∀ (inp : PolyPlacementInput) (pd : PolygonalPlacementInteractorResult)
      (spacing : ℚ) (pls : List BarPlacement),
      placeByPolygon inp pd spacing = .ok pls →
      (∀ (k : ℕ) (pl : BarPlacement), pls.get? k = some pl →
        pl.position = inp.barPosition + (k : Int)) ∧
      ∀ (i j : ℕ) (pli plj : BarPlacement), pls.get? i = some pli →
        pls.get? j = some plj → i < j → pli.position < plj.position) := by
  constructor
  · intro calcRegions createPl shape basePos regionsString lineStart lineEnd pls hcreate h
    unfold placeInLine at h
    cases hp : placementRegionsFromString regionsString shape.diameter with
    | error e =>
      rw [hp] at h
      exact absurd h (by simp)
    | ok regions =>
      rw [hp] at h
      obtain ⟨_, hpos⟩ := lineLoop_positions createPl regions basePos hcreate _ 0 _ pls h
      have hk : ∀ (k : ℕ) (pl : BarPlacement), pls.get? k = some pl →
          pl.position = basePos + (k : Int) := by
        intro k pl hkk
        have := hpos k pl hkk
        rw [this, Nat.zero_add]
      refine ⟨hk, ?_⟩
      intro i j pli plj hi hj hij
      rw [hk i pli hi, hk j plj hj]
      have : (i : Int) < (j : Int) := by exact_mod_cast hij
      omega
  · intro inp pd spacing pls h
    unfold placeByPolygon at h
    cases hu : pipelineUtilE inp pd with
    | error e =>
      rw [hu] at h
      exact absurd h (by simp)
    | ok util =>
      rw [hu] at h
      cases hl : localToWorldE pd with
      | error e =>
        rw [hl] at h
        exact absurd h (by simp)
      | ok l2w =>
        rw [hl] at h
        cases hr : populateRegionsE inp.startCover inp.endCover pd spacing with
        | error e =>
          rw [hr] at h
          exact absurd h (by simp)
        | ok regions =>
          rw [hr] at h
          obtain ⟨hlen, hspec⟩ := polygonLoop_ok util l2w inp.barPosition regions 0 _ pls h
          have hk : ∀ (k : ℕ) (pl : BarPlacement), pls.get? k = some pl →
              pl.position = inp.barPosition + (k : Int) := by
            intro k pl hkk
            have hkp : ¬pls.length ≤ k := by
              intro hle
              rw [List.get?_eq_none.mpr hle] at hkk
              exact absurd hkk (by simp)
            cases hrr : regions.get? k with
            | none =>
              have := List.get?_eq_none.mp hrr
              rw [← hlen] at this
              exact absurd this hkp
            | some r =>
              obtain ⟨sd, ed, _, _, hpl⟩ := hspec k pl r hkk hrr
              rw [hpl, Nat.zero_add]
              rfl
          refine ⟨hk, ?_⟩
          intro i j pli plj hi hj hij
          rw [hk i pli hi, hk j plj hj]
          have : (i : Int) < (j : Int) := by exact_mod_cast hij
          omega

/-- Witness for C9 at a concrete linear run: two regions, positions
7 and 8. -/
theorem claim9_witness :
    (∀ (k : ℕ) (pl : BarPlacement), exLinePlacements.get? k = some pl →
      pl.position = 7 + (k : Int)) ∧
    ∀ (i j : ℕ) (pli plj : BarPlacement), exLinePlacements.get? i = some pli →
      exLinePlacements.get? j = some plj → i < j → pli.position < plj.position :=
  claim9_positions.1 exCalcRegions exCreatePl exShapeA 7 (("100+$*250").toList)
    ⟨0, 0, 0⟩ ⟨1000, 0, 0⟩ exLinePlacements (fun _ _ _ _ _ => rfl)
    (by with_unfolding_all decide)

theorem validTopIdx_moveShape (u : BendingShapeDistortionUtil) (s : BendingShape) (v : V3) :
    ValidTopIdx u (moveShape s v) ↔ ValidTopIdx u s := by
  unfold ValidTopIdx moveShape
  simp

theorem pipelineUtil_direction (inp : PolyPlacementInput)
    (pd : PolygonalPlacementInteractorResult) (util : BendingShapeDistortionUtil)
    (h : pipelineUtilE inp pd = .ok util) : util.distortionVector = ⟨0, 1, 0⟩ := by
  unfold pipelineUtilE at h
  cases hl : localToWorldE pd with
  | error e =>
    rw [hl] at h
    exact absurd h (by simp)
  | ok l2w =>
    rw [hl] at h
    dsimp only at h
    cases ht : computeTopVerticesE inp (applyLin l2w ⟨0, 0, 1⟩) with
    | error e =>
      rw [ht] at h
      exact absurd h (by simp)
    | ok top =>
      rw [ht] at h
      injection h with h2
      rw [← h2]

theorem filterMap_regionOfPoly_eq (dps : List Pt2) :
    ∀ polys : List (List Pt2),
      polys.filterMap (regionOfPoly dps) =
        (polys.filter (fun p => !(crossBarLines dps p).isEmpty)).map
          (fun p => regionOfLines (crossBarLines dps p)) := by
  intro polys
  induction polys with
  | nil => rfl
  | cons p ps ih =>
    by_cases hp : (crossBarLines dps p).isEmpty = true
    · have h1 : regionOfPoly dps p = none := by
        unfold regionOfPoly
        rw [if_pos hp]
      have h2 : (!(crossBarLines dps p).isEmpty) = false := by
        rw [hp]
        rfl
      simp [List.filterMap_cons, List.filter_cons, h1, h2, ih]
    · have h1 : regionOfPoly dps p = some (regionOfLines (crossBarLines dps p)) := by
        unfold regionOfPoly
        rw [if_neg hp]
      have h2 : (!(crossBarLines dps p).isEmpty) = true := by
        revert hp
        cases (crossBarLines dps p).isEmpty <;> simp
      simp [List.filterMap_cons, List.filter_cons, h1, h2, ih]

/-- C1 (corrected), counterexample: a single rectangular elementary
polygon of height 200 with three qualifying probes.  The cross-bar
segments all have length 200, but both placed instances come out with
distortion dimension 140 = 200 - 60: `_populate_regions` subtracts the
hard-coded stirrup-leg reduction 60 from `CalcLength` before
distorting, so the instance dimension does not equal the segment
length. -/
theorem claim1_counterexample :
    pipelineUtilE exInput exPlacementData = .ok exUtil ∧
    divPtsE exInput.startCover exInput.endCover exPlacementData 100 = .ok exDps ∧
    qualifyingPolys exDps exPlacementData = [exLocalPoly] ∧
    (placeByPolygon exInput exPlacementData 100).map
      (fun pls => pls.map (fun pl => getDistortionDimension exUtil pl.startShape)) =
      .ok [140] ∧
    (placeByPolygon exInput exPlacementData 100).map
      (fun pls => pls.map (fun pl => getDistortionDimension exUtil pl.endShape)) =
      .ok [140] ∧
    calcLength2D ((crossBarLines exDps exLocalPoly).headD dummyLine) = 200 ∧
    calcLength2D ((crossBarLines exDps exLocalPoly).getLastD dummyLine) = 200 ∧
    (140 : ℚ) ≠ 200 := by
  with_unfolding_all decide

/-- C1 (corrected, amended): in a polygonal placement run, the `k`-th
placement is built from the `k`-th qualifying elementary polygon; its
start/end instances are the projected start shape moved to the first /
last cross-bar segment's start point and distorted to that segment's
length *minus the hard-coded 60-unit stirrup-leg reduction* — and,
under the distortion engine's preconditions (`DistortOK`, in-range
marked indices), the distortion dimension of each instance (measured
in the placement-local frame, where the engine operates; the packaged
world instances are these shapes transformed by `local_to_world`)
equals exactly that reduced length. -/
theorem claim1_distortion_amended
    (inp : PolyPlacementInput) (pd : PolygonalPlacementInteractorResult) (spacing : ℚ)
    (util : BendingShapeDistortionUtil) (l2w : Aff3) (dps : List Pt2)
    (pls : List BarPlacement) (k : ℕ) (pl : BarPlacement) (poly : List Pt2)
    (hutil : pipelineUtilE inp pd = .ok util)
    (hl2w : localToWorldE pd = .ok l2w)
    (hdps : divPtsE inp.startCover inp.endCover pd spacing = .ok dps)
    (hrun : placeByPolygon inp pd spacing = .ok pls)
    (hk : pls.get? k = some pl)
    (hpoly : (qualifyingPolys dps pd).get? k = some poly)
    (hidx : ValidTopIdx util (pipelineStartShape inp pd))
    (hOKs : DistortOK util
      (moveShape (pipelineStartShape inp pd)
        (to3 (regionOfLines (crossBarLines dps poly)).startPnt))
      (regionOfLines (crossBarLines dps poly)).heightAtStart)
    (hOKe : DistortOK util
      (moveShape (pipelineStartShape inp pd)
        (to3 (regionOfLines (crossBarLines dps poly)).endPnt))
      (regionOfLines (crossBarLines dps poly)).heightAtEnd) :
    ∃ sd ed,
      distortShape util (moveShape (pipelineStartShape inp pd)
        (to3 (regionOfLines (crossBarLines dps poly)).startPnt))
        (regionOfLines (crossBarLines dps poly)).heightAtStart = .ok sd ∧
      getDistortionDimension util sd =
        calcLength2D ((crossBarLines dps poly).headD dummyLine) - 60 ∧
      distortShape util (moveShape (pipelineStartShape inp pd)
        (to3 (regionOfLines (crossBarLines dps poly)).endPnt))
        (regionOfLines (crossBarLines dps poly)).heightAtEnd = .ok ed ∧
      getDistortionDimension util ed =
        calcLength2D ((crossBarLines dps poly).getLastD dummyLine) - 60 ∧
      pl.startShape = transformShape l2w sd ∧
      pl.endShape = transformShape l2w ed ∧
      pl.barCount = (crossBarLines dps poly).length ∧
      pl.position = inp.barPosition + (k : Int) := by
  unfold placeByPolygon at hrun
  rw [hutil, hl2w] at hrun
  have hpop : populateRegionsE inp.startCover inp.endCover pd spacing =
      .ok ((localPolys pd).filterMap (regionOfPoly dps)) := by
    unfold populateRegionsE
    rw [hdps]
  rw [hpop] at hrun
  obtain ⟨hlen, hspec⟩ := polygonLoop_ok util l2w inp.barPosition _ 0 _ pls hrun
  have hregs : (localPolys pd).filterMap (regionOfPoly dps) =
      (qualifyingPolys dps pd).map (fun p => regionOfLines (crossBarLines dps p)) := by
    rw [filterMap_regionOfPoly_eq]
    rfl
  have hrget : ((localPolys pd).filterMap (regionOfPoly dps)).get? k =
      some (regionOfLines (crossBarLines dps poly)) := by
    rw [hregs, List.get?_map, hpoly]
    rfl
  obtain ⟨sd, ed, hds, hde, hpl⟩ := hspec k pl _ hk hrget
  have hdirv : util.distortionVector = ⟨0, 1, 0⟩ :=
    pipelineUtil_direction inp pd util hutil
  have huu : dot3 util.distortionVector util.distortionVector = 1 := by
    rw [hdirv]
    with_unfolding_all decide
  obtain ⟨sd2, hds2, hdim2⟩ := distortReachesTarget util _ _ huu
    ((validTopIdx_moveShape util (pipelineStartShape inp pd) _).mpr hidx) hOKs
  obtain ⟨ed2, hde2, hdim3⟩ := distortReachesTarget util _ _ huu
    ((validTopIdx_moveShape util (pipelineStartShape inp pd) _).mpr hidx) hOKe
  have hsd : sd = sd2 := Except.ok.inj (hds.symm.trans hds2)
  have hed : ed = ed2 := Except.ok.inj (hde.symm.trans hde2)
  refine ⟨sd, ed, hds, ?_, hde, ?_, ?_, ?_, ?_, ?_⟩
  · rw [hsd, hdim2]
    rfl
  · rw [hed, hdim3]
    rfl
  · rw [hpl]
    rfl
  · rw [hpl]
    rfl
  · rw [hpl]
    rfl
  · rw [hpl, Nat.zero_add]
    rfl

/-- Witness for C1 at the concrete scenario: rectangle polygon, three
probes, cross-bar segments of length 200, dimension 140 = 200 - 60. -/
theorem claim1_witness :
    ∃ sd ed,
      distortShape exUtil (moveShape (pipelineStartShape exInput exPlacementData)
        (to3 (regionOfLines (crossBarLines exDps exLocalPoly)).startPnt))
        (regionOfLines (crossBarLines exDps exLocalPoly)).heightAtStart = .ok sd ∧
      getDistortionDimension exUtil sd =
        calcLength2D ((crossBarLines exDps exLocalPoly).headD dummyLine) - 60 ∧
      distortShape exUtil (moveShape (pipelineStartShape exInput exPlacementData)
        (to3 (regionOfLines (crossBarLines exDps exLocalPoly)).endPnt))
        (regionOfLines (crossBarLines exDps exLocalPoly)).heightAtEnd = .ok ed ∧
      getDistortionDimension exUtil ed =
        calcLength2D ((crossBarLines exDps exLocalPoly).getLastD dummyLine) - 60 ∧
      (⟨7, 3, exStartInstance, exEndInstance⟩ : BarPlacement).startShape =
        transformShape identAff sd ∧
      (⟨7, 3, exStartInstance, exEndInstance⟩ : BarPlacement).endShape =
        transformShape identAff ed ∧
      (⟨7, 3, exStartInstance, exEndInstance⟩ : BarPlacement).barCount =
        (crossBarLines exDps exLocalPoly).length ∧
      (⟨7, 3, exStartInstance, exEndInstance⟩ : BarPlacement).position =
        exInput.barPosition + ((0 : ℕ) : Int) :=
  claim1_distortion_amended exInput exPlacementData 100 exUtil identAff exDps
    exPlacementResult 0 ⟨7, 3, exStartInstance, exEndInstance⟩ exLocalPoly
    (by with_unfolding_all decide) (by with_unfolding_all decide)
    (by with_unfolding_all decide) (by with_unfolding_all decide)
    (by with_unfolding_all decide) (by with_unfolding_all decide)
    (by with_unfolding_all decide) (by with_unfolding_all decide)
    (by with_unfolding_all decide)

theorem splitFold_some_lengths (split : List Pt2 → ℚ → List Pt2 × List Pt2) :
    ∀ (xs : List ℚ) (cur : List Pt2) (ps : List (List Pt2)),
      splitFold split cur xs = some ps → ∀ p ∈ ps, p.length = 5 := by
  intro xs
  induction xs with
  | nil =>
    intro cur ps h p hp
    rw [show splitFold split cur [] =
      (if cur.length = 5 then some [cur] else none) from rfl] at h
    split_ifs at h with hc
    · injection h with h2
      rw [← h2] at hp
      rcases List.mem_singleton.mp hp with rfl
      exact hc
  | cons x rest ih =>
    intro cur ps h p hp
    rw [show splitFold split cur (x :: rest) =
      (if (split cur x).1.length = 5 then
        match splitFold split (split cur x).2 rest with
        | some qs => some ((split cur x).1 :: qs)
        | none => none
      else none) from rfl] at h
    split_ifs at h with hc
    cases hs : splitFold split (split cur x).2 rest with
    | some qs =>
      rw [hs] at h
      injection h with h2
      rw [← h2] at hp
      rcases List.mem_cons.mp hp with rfl | hmem
      · exact hc
      · exact ih (split cur x).2 qs hs p hmem
    | none =>
      rw [hs] at h
      exact Option.noConfusion h

/-- C6: the partitioner never raises past the cap-edge check — the
embedding of lines 262-292 is a total function into the tri-state
result.  A local polygon with a number of `Y`-parallel cap edges
different from two yields the explicit value
`INVALID_FOR_POLYGONAL_PLACEMENT` with no decomposition (the polygon
itself is echoed back); so does a run in which a split piece or the
final remainder is not a 5-point closed quadrilateral; a `VALID`
result carries only 5-point pieces; and every outcome past the
cap-edge check is one of the two explicit values `VALID` or
`INVALID_FOR_POLYGONAL_PLACEMENT`. -/
theorem claim6_invalid_is_explicit_result :
    (∀ (split : List Pt2 → ℚ → List Pt2 × List Pt2) (lp : List Pt2),
      (capStartPoints lp).length ≠ 2 →
      analyseFromLocal split lp = (.invalidForPolygonalPlacement, [lp])) ∧
    (∀ (split : List Pt2 → ℚ → List Pt2 × List Pt2) (lp : List Pt2) (a b : Pt2),
      capStartPoints lp = [a, b] →
      splitFold split lp (splitCoords lp a.x b.x) = none →
      analyseFromLocal split lp = (.invalidForPolygonalPlacement, [lp])) ∧
    (∀ (split : List Pt2 → ℚ → List Pt2 × List Pt2) (lp : List Pt2)
      (pieces : List (List Pt2)),
      analyseFromLocal split lp = (.valid, pieces) → ∀ p ∈ pieces, p.length = 5) ∧
    (∀ (split : List Pt2 → ℚ → List Pt2 × List Pt2) (lp : List Pt2),
      (analyseFromLocal split lp).1 = .valid ∨
      (analyseFromLocal split lp).1 = .invalidForPolygonalPlacement) := by
  refine ⟨?_, ?_, ?_, ?_⟩
  · intro split lp h
    unfold analyseFromLocal
    cases hcap : capStartPoints lp with
    | nil => rfl
    | cons a l1 =>
      cases l1 with
      | nil => rfl
      | cons b l2 =>
        cases l2 with
        | nil =>
          exact absurd (by rw [hcap]; rfl : (capStartPoints lp).length = 2) h
        | cons c l3 => rfl
  · intro split lp a b hcap hnone
    unfold analyseFromLocal
    rw [hcap]
    dsimp only
    rw [hnone]
  · intro split lp pieces h p hp
    unfold analyseFromLocal at h
    cases hcap : capStartPoints lp with
    | nil =>
      rw [hcap] at h
      dsimp only at h
      injection h with h1 h2
      exact PolygonAnalysisResult.noConfusion h1
    | cons a l1 =>
      cases l1 with
      | nil =>
        rw [hcap] at h
        dsimp only at h
        injection h with h1 h2
        exact PolygonAnalysisResult.noConfusion h1
      | cons b l2 =>
        cases l2 with
        | nil =>
          rw [hcap] at h
          dsimp only at h
          cases hs : splitFold split lp (splitCoords lp a.x b.x) with
          | some qs =>
            rw [hs] at h
            dsimp only at h
            injection h with h1 h2
            rw [← h2] at hp
            exact splitFold_some_lengths split _ lp qs hs p hp
          | none =>
            rw [hs] at h
            dsimp only at h
            injection h with h1 h2
            exact PolygonAnalysisResult.noConfusion h1
        | cons c l3 =>
          rw [hcap] at h
          dsimp only at h
          injection h with h1 h2
          exact PolygonAnalysisResult.noConfusion h1
  · intro split lp
    unfold analyseFromLocal
    cases capStartPoints lp with
    | nil => exact Or.inr rfl
    | cons a l1 =>
      cases l1 with
      | nil => exact Or.inr rfl
      | cons b l2 =>
        cases l2 with
        | nil =>
          dsimp only
          cases splitFold split lp (splitCoords lp a.x b.x) with
          | some qs => exact Or.inl rfl
          | none => exact Or.inr rfl
        | cons c l3 => exact Or.inr rfl

/-- Witness for C6: the three-cap polygon is rejected with the
explicit result value, and so is the pentagon (two caps, but the
trivial split leaves a 6-point piece). -/
theorem claim6_witness :
    analyseFromLocal exTrivialSplit exThreeCapPoly =
      (.invalidForPolygonalPlacement, [exThreeCapPoly]) ∧
    analyseFromLocal exTrivialSplit exPentagonPoly =
      (.invalidForPolygonalPlacement, [exPentagonPoly]) :=
  ⟨claim6_invalid_is_explicit_result.1 exTrivialSplit exThreeCapPoly
     (by with_unfolding_all decide),
   claim6_invalid_is_explicit_result.2.1 exTrivialSplit exPentagonPoly ⟨0, 2⟩ ⟨4, 0⟩
     (by with_unfolding_all decide) (by with_unfolding_all decide)⟩
